import Mathlib

/-!
Verification development for the AutoGPT-Next-Web-Multi agent core.

The TypeScript sources are shallowly embedded: JS strings become `List Char`
(wrapped in `String` at API boundaries), JS numbers that hold token counts or
timestamps become `Int`/`Nat` (`ℚ` where a fractional threshold is compared),
and the ECMAScript regular expressions used by the task-text extractor are
transcribed into an explicit regex AST executed by a backtracking matcher
`reM` that reproduces ECMAScript semantics: leftmost match, alternation tried
left to right, greedy quantifiers that prefer longer iterations first and
abort an iteration that consumes nothing.
-/

namespace AutoNext

/-! ### JS character classes and string helpers -/

/-- Characters that are not directly writable in this file. -/
def qc : Char := Char.ofNat 34

def sqc : Char := Char.ofNat 39

def bsc : Char := Char.ofNat 92

def nlc : Char := Char.ofNat 10

def crc : Char := Char.ofNat 13

def lbr : Char := Char.ofNat 123

def rbr : Char := Char.ofNat 125

/-- ECMAScript `\s`: whitespace and line terminators. -/
def isJsSpace (c : Char) : Bool :=
  let n := c.toNat
  n == 32 || n == 9 || n == 10 || n == 11 || n == 12 || n == 13 ||
  n == 160 || n == 0x1680 || (0x2000 ≤ n && n ≤ 0x200a) ||
  n == 0x2028 || n == 0x2029 || n == 0x202f || n == 0x205f ||
  n == 0x3000 || n == 0xfeff

/-- ECMAScript `\d`. -/
def isDigitC (c : Char) : Bool := 48 ≤ c.toNat && c.toNat ≤ 57

/-- ECMAScript line terminators, excluded by `.` (no `s` flag anywhere). -/
def isLineTerm (c : Char) : Bool :=
  c.toNat == 10 || c.toNat == 13 || c.toNat == 0x2028 || c.toNat == 0x2029

/-- ASCII lowercasing, the fragment of `String.prototype.toLowerCase` the
embedded strings exercise. -/
def lowerC (c : Char) : Char :=
  if 65 ≤ c.toNat && c.toNat ≤ 90 then Char.ofNat (c.toNat + 32) else c

def lowerL (cs : List Char) : List Char := cs.map lowerC

/-- `String.prototype.trim` (both ends, `\s`). -/
def trimL (cs : List Char) : List Char :=
  ((cs.dropWhile isJsSpace).reverse.dropWhile isJsSpace).reverse

/-- `String.prototype.includes` (substring containment). -/
def containsSub (needle hay : List Char) : Bool :=
  hay.tails.any (fun t => needle.isPrefixOf t)

/-- `indexOf` for a single character; `none` when absent. -/
def idxOfChar (c : Char) (cs : List Char) : Option Nat :=
  cs.findIdx? (fun x => x == c)

/-! ### ECMAScript regex AST and backtracking matcher

`reM fuel r cs` returns the list of `(remaining suffix, group-1 capture)`
pairs for every way `r` can match a prefix of `cs`, ordered by ECMAScript
backtracking priority (first element = the match JS commits to).  `fuel`
only bounds recursion depth; every top-level entry point supplies fuel that
is amply larger than the deepest possible backtracking stack. -/

inductive RE where
  | emp : RE
  | cls : (Char → Bool) → RE
  | seq : RE → RE → RE
  | alt : RE → RE → RE
  | star : RE → RE
  | grp : RE → RE
  | look : Bool → RE → RE
  | eos : RE

/-- Greedy `r?`. -/
def RE.opt (r : RE) : RE := .alt r .emp

/-- `r+` (greedy). -/
def RE.plus (r : RE) : RE := .seq r (.star r)

/-- Literal character (case-sensitive). -/
def RE.ch (c : Char) : RE := .cls (fun x => x == c)

/-- Case-insensitive literal character (the `i` flag). -/
def RE.chi (c : Char) : RE := .cls (fun x => lowerC x == lowerC c)

/-- Sequence of a list of regexes. -/
def RE.cat : List RE → RE
  | [] => .emp
  | [r] => r
  | r :: rs => .seq r (RE.cat rs)

/-- Case-sensitive literal string. -/
def RE.lit (s : String) : RE := RE.cat (s.data.map RE.ch)

/-- Case-insensitive literal string. -/
def RE.liti (s : String) : RE := RE.cat (s.data.map RE.chi)

abbrev Cap := Option (List Char)

abbrev MRes := List (List Char × Cap)

/-- Later (inner/right) capture wins, matching JS where a group set later in
the match overwrites an earlier value.  The patterns transcribed below read
at most one capturing group, so this is only used degenerately. -/
def mergeCap (newc old : Cap) : Cap := newc.orElse (fun _ => old)

def reM : Nat → RE → List Char → MRes
  | 0, _, _ => []
  | f + 1, r, cs =>
    match r with
    | .emp => [(cs, none)]
    | .cls p =>
      match cs with
      | [] => []
      | c :: cs' => if p c then [(cs', none)] else []
    | .seq a b =>
      (reM f a cs).flatMap fun pa =>
        (reM f b pa.1).map fun pb => (pb.1, mergeCap pb.2 pa.2)
    | .alt a b => reM f a cs ++ reM f b cs
    | .star r' =>
      (((reM f r' cs).filter fun pa => pa.1.length < cs.length).flatMap fun pa =>
        (reM f (.star r') pa.1).map fun pb => (pb.1, mergeCap pb.2 pa.2))
      ++ [(cs, none)]
    | .grp r' =>
      (reM f r' cs).map fun pa => (pa.1, some (cs.take (cs.length - pa.1.length)))
    | .look pos r' => if (reM f r' cs).isEmpty == !pos then [(cs, none)] else []
    | .eos => if cs.isEmpty then [(cs, none)] else []

/-- Fuel that dominates the recursion depth of `reM` for every pattern
transcribed in this file (all have AST size well under 512, and each star
iteration consumes at least one character). -/
def bigFuel (cs : List Char) : Nat := 512 * (cs.length + 1)

/-- Anchored match attempt at the start of the string (`^pattern`): the
suffix and capture of the committed (first-priority) match. -/
def matchAt (r : RE) (cs : List Char) : Option (List Char × Cap) :=
  (reM (bigFuel cs) r cs).head?

/-- `regex.test` for a `^`-anchored pattern. -/
def testAnchored (r : RE) (cs : List Char) : Bool :=
  !(reM (bigFuel cs) r cs).isEmpty

/-- Leftmost match search: returns `(prefix before the match, matched
characters, capture, suffix after the match)` for the first position at
which `r` matches, scanning left to right as an unanchored JS regex does. -/
def searchL (r : RE) : List Char → Option (List Char × List Char × Cap × List Char)
  | [] =>
    match (reM (bigFuel []) r []).head? with
    | some (_, cap) => some ([], [], cap, [])
    | none => none
  | c :: cs =>
    match (reM (bigFuel (c :: cs)) r (c :: cs)).head? with
    | some (suf, cap) =>
      some ([], (c :: cs).take ((c :: cs).length - suf.length), cap, suf)
    | none =>
      match searchL r cs with
      | some (pre, mat, cap, suf) => some (c :: pre, mat, cap, suf)
      | none => none

/-- `String.prototype.matchAll` for a global regex: the successive
non-overlapping leftmost matches with their captures.  An empty match
advances the scan position by one, as JS does with `lastIndex`. -/
def matchAllL (fuel : Nat) (r : RE) (cs : List Char) : List (List Char × Cap) :=
  match fuel with
  | 0 => []
  | f + 1 =>
    match searchL r cs with
    | none => []
    | some (_, mat, cap, suf) =>
      if mat.isEmpty then
        match suf with
        | [] => [(mat, cap)]
        | _ :: suf' => (mat, cap) :: matchAllL f r suf'
      else (mat, cap) :: matchAllL f r suf

def matchAll (r : RE) (cs : List Char) : List (List Char × Cap) :=
  matchAllL (cs.length + 1) r cs

/-- Global `String.prototype.replace` where the replacement is built from
the group-1 capture (`$1`); `mk` turns the capture into the replacement
text.  Scans left to right, skipping one character when no match starts at
the current position. -/
def replaceAllL (fuel : Nat) (r : RE) (mk : Cap → List Char) (cs : List Char) :
    List Char :=
  match fuel with
  | 0 => cs
  | f + 1 =>
    match cs, (reM (bigFuel cs) r cs).head? with
    | _, some (suf, cap) =>
      let consumed := cs.length - suf.length
      if consumed == 0 then
        match cs with
        | [] => mk cap
        | c :: cs' => mk cap ++ c :: replaceAllL f r mk cs'
      else mk cap ++ replaceAllL f r mk suf
    | [], none => []
    | c :: cs', none => c :: replaceAllL f r mk cs'

def replaceAll (r : RE) (mk : Cap → List Char) (cs : List Char) : List Char :=
  replaceAllL (cs.length + 1) r mk cs

/-! ### `src/utils/helpers.ts`: `removeTaskPrefix`

Source pattern: `/^(Task\s*\d*\.\s*|Task\s*\d*[-:]?\s*|-?\d+\s*[-:]?\s*)/i`,
replaced by the empty string. -/

def wsStar : RE := .star (.cls isJsSpace)

def digStar : RE := .star (.cls isDigitC)

def dashColonOpt : RE := RE.opt (.cls fun c => c == '-' || c == ':')

/-- `Task\s*\d*\.\s*` -/
def taskPrefixAlt1 : RE :=
  RE.cat [RE.liti "Task", wsStar, digStar, RE.ch '.', wsStar]

/-- `Task\s*\d*[-:]?\s*` -/
def taskPrefixAlt2 : RE :=
  RE.cat [RE.liti "Task", wsStar, digStar, dashColonOpt, wsStar]

/-- `-?\d+\s*[-:]?\s*` -/
def taskPrefixAlt3 : RE :=
  RE.cat [RE.opt (RE.ch '-'), RE.plus (.cls isDigitC), wsStar, dashColonOpt, wsStar]

/-- The whole (anchored, case-insensitive) task-prefix pattern. -/
def taskPrefixPat : RE := .grp (.alt taskPrefixAlt1 (.alt taskPrefixAlt2 taskPrefixAlt3))

/-- `removeTaskPrefix` from `src/utils/helpers.ts`: strip the anchored match
of `taskPrefixPat`, if any.  (Named with an `Fn` suffix in this
development.) -/
def removeTaskPrefixFn (s : String) : String :=
  match matchAt taskPrefixPat s.data with
  | some (suf, _) => ⟨suf⟩
  | none => s

/-! ### `src/utils/helpers.ts`: `realTasksFilter` -/

/-- First alternative of a list of alternatives (left to right, as JS `|`). -/
def RE.altL : List RE → RE
  | [] => .cls fun _ => false
  | [r] => r
  | r :: rs => .alt r (RE.altL rs)

/-- `.` without the `s` flag. -/
def dotC : RE := .cls fun c => !isLineTerm c

/-- The 13 `noTaskPatterns` of `realTasksFilter`, in source order.  All are
`^`-anchored and case-insensitive; they are applied to the already
lowercased, trimmed input, exactly as in the source. -/
def noTaskPats : List RE :=
  [ RE.cat [RE.liti "no",
      RE.opt (RE.cat [RE.ch ' ',
        RE.altL [RE.liti "new", RE.liti "further", RE.liti "additional",
                 RE.liti "extra", RE.liti "other"]]),
      RE.liti " task", RE.opt (RE.chi 's'), RE.ch ' ',
      RE.opt (RE.liti "is "),
      RE.altL [RE.liti "required", RE.liti "needed", RE.liti "added",
               RE.liti "created", RE.liti "inputted"]],
    RE.cat [RE.liti "task ",
      RE.altL [RE.liti "complete", RE.liti "completed", RE.liti "finished",
               RE.liti "done", RE.liti "over", RE.liti "success"]],
    RE.cat [RE.alt wsStar
      (RE.cat [RE.liti "do nothing",
        RE.opt (RE.cat [RE.cls isJsSpace, RE.star dotC])]), RE.eos],
    RE.cat [RE.altL [RE.liti "none", RE.liti "n/a", RE.liti "not applicable",
                     RE.liti "skip", RE.liti "pass"], RE.eos],
    RE.cat [RE.altL [RE.liti "goal", RE.liti "objective", RE.liti "target",
                     RE.liti "aim"], RE.ch ':'],
    RE.cat [RE.altL [RE.liti "note", RE.liti "info", RE.liti "information"],
            RE.ch ':'],
    RE.cat [RE.altL [RE.liti "here", RE.liti "this", RE.liti "these"],
            RE.ch ' ', RE.altL [RE.liti "is", RE.liti "are"]],
    RE.altL [RE.liti "the goal", RE.liti "the objective"],
    RE.cat [RE.altL [RE.liti "empty", RE.liti "null", RE.liti "undefined"],
            RE.eos],
    RE.cat [RE.altL [RE.cat [RE.liti "no task", RE.opt (RE.chi 's')],
                     RE.liti "nothing", RE.liti "no action"], RE.eos],
    RE.cat [RE.liti "task creation ",
      RE.altL [RE.liti "complete", RE.liti "completed", RE.liti "finished"]],
    RE.cat [RE.liti "goal ",
      RE.altL [RE.liti "achieved", RE.liti "reached", RE.liti "completed"]],
    RE.cat [RE.opt (RE.ch '['), RE.opt (RE.ch ']'), RE.eos] ]

/-- The `actionWords` array of `realTasksFilter`. -/
def actionWords : List String :=
  ["analyze", "create", "develop", "build", "implement", "design", "research",
   "study", "learn", "understand", "investigate", "explore", "examine",
   "review", "evaluate", "assess", "plan", "organize", "prepare", "setup",
   "configure", "install", "deploy", "test", "validate", "verify", "check",
   "identify", "find", "search", "gather", "collect", "compile", "generate",
   "write", "document", "record", "track", "monitor", "optimize", "improve",
   "update", "modify", "enhance", "fix", "solve", "resolve", "address"]

/-- The substrings probed by the `taskIndicators` array (each entry of the
source array is `cleanInput.includes(w)` for one of these). -/
def taskIndicatorSubs : List String := ["for ", "to ", "of ", "with ", "about "]

/-- `realTasksFilter` from `src/utils/helpers.ts`. -/
def realTasksFilter (input : String) : Bool :=
  if input.data.isEmpty then false
  else
    let clean := lowerL (trimL input.data)
    if clean.length < 5 then false
    else if 300 < clean.length then false
    else if noTaskPats.any fun p => testAnchored p clean then false
    else
      let hasActionWord := actionWords.any fun w => containsSub w.data clean
      let hasTaskIndicator := taskIndicatorSubs.any fun w => containsSub w.data clean
      hasActionWord || hasTaskIndicator

/-! ### `src/utils/helpers.ts`: `extractTasksFromPlainText` -/

/-- `String.prototype.split` on a (non-empty) literal delimiter. -/
def splitGo (fuel : Nat) (delim acc rest : List Char) : List (List Char) :=
  match fuel with
  | 0 => [acc.reverse ++ rest]
  | f + 1 =>
    if delim.isPrefixOf rest then
      acc.reverse :: splitGo f delim [] (rest.drop delim.length)
    else
      match rest with
      | [] => [acc.reverse]
      | c :: rest' => splitGo f delim (c :: acc) rest'

def splitOnSub (delim cs : List Char) : List (List Char) :=
  splitGo (cs.length + 1) delim [] cs

/-- The six `taskPatterns` (`^...$`, group 1 = the task text). -/
def plainTaskPats : List RE :=
  [ RE.cat [RE.plus (.cls isDigitC), RE.ch '.', wsStar, RE.grp (RE.plus dotC), RE.eos],
    RE.cat [RE.ch '-', wsStar, RE.grp (RE.plus dotC), RE.eos],
    RE.cat [RE.ch '*', wsStar, RE.grp (RE.plus dotC), RE.eos],
    RE.cat [RE.liti "Task", wsStar, digStar, RE.opt (RE.ch ':'), wsStar,
            RE.grp (RE.plus dotC), RE.eos],
    RE.cat [RE.liti "Step", wsStar, digStar, RE.opt (RE.ch ':'), wsStar,
            RE.grp (RE.plus dotC), RE.eos],
    RE.cat [RE.liti "Action", wsStar, digStar, RE.opt (RE.ch ':'), wsStar,
            RE.grp (RE.plus dotC), RE.eos] ]

/-- The "skip obvious non-task lines" test of `extractTasksFromPlainText`. -/
def plainSkipLine (line : List Char) : Bool :=
  containsSub "goal".data line || containsSub "objective".data line ||
  containsSub "Note:".data line || containsSub "Here".data line ||
  line.length < 10 ||
  containsSub "array".data (lowerL line) ||
  containsSub "format".data (lowerL line)

/-- First `taskPatterns` hit on a line: the trimmed group-1 text, provided
the raw capture is non-empty (`match && match[1]`). -/
def plainPatternHit (line : List Char) : Option (List Char) :=
  (plainTaskPats.filterMap fun p =>
    match matchAt p line with
    | some (_, some cap) => if cap.isEmpty then none else some (trimL cap)
    | _ => none).head?

/-- Per-line step of `extractTasksFromPlainText`'s main loop. -/
def plainLineTasks (line : List Char) : List (List Char) :=
  if plainSkipLine line then []
  else
    match plainPatternHit line with
    | some taskText =>
      if 5 < taskText.length && taskText.length < 200 then [taskText]
      else
        if 15 < line.length && line.length < 200 &&
            containsSub [' '] line && !containsSub ['['] line &&
            !containsSub [lbr] line then [line]
        else []
    | none =>
      if 15 < line.length && line.length < 200 &&
          containsSub [' '] line && !containsSub ['['] line &&
          !containsSub [lbr] line then [line]
      else []

/-- The delimiter fallback: first delimiter present in the text whose split
leaves at least one plausible fragment. -/
def plainDelimTasks : List (List Char) → List Char → List (List Char)
  | [], _ => []
  | d :: ds, text =>
    if containsSub d text then
      let splitTasks := (splitOnSub d text).map trimL |>.filter fun t =>
        10 < t.length && t.length < 200 && !containsSub ['['] t && !containsSub [lbr] t
      if splitTasks.length > 0 then splitTasks else plainDelimTasks ds text
    else plainDelimTasks ds text

def plainDelims : List (List Char) :=
  [". ".data, ", ".data, "; ".data, " and ".data, " then ".data]

/-- `extractTasksFromPlainText` from `src/utils/helpers.ts`. -/
def extractTasksFromPlainText (text : String) : List String :=
  if text.data.isEmpty then []
  else
    let lines := ((splitOnSub [nlc] text.data).map trimL).filter fun l => l.length > 0
    let tasks := lines.flatMap plainLineTasks
    let tasks := if tasks.isEmpty then plainDelimTasks plainDelims text.data else tasks
    (tasks.take 5).map fun l => ⟨l⟩

/-! ### `src/utils/helpers.ts`: `fixCommonJsonIssues` -/

/-- Last index of a character, if present. -/
def lastIdxOfChar (c : Char) (cs : List Char) : Option Nat :=
  match (cs.reverse).findIdx? (fun x => x == c) with
  | some i => some (cs.length - 1 - i)
  | none => none

/-- Characters allowed inside the unquoted-content captures of the repair
patterns: `[^"'\[\]]` -/
def unq1 (c : Char) : Bool := !(c == qc || c == sqc || c == '[' || c == ']')

/-- `[^"'\[\],]` -/
def unq2 (c : Char) : Bool := unq1 c && !(c == ',')

/-- `fixCommonJsonIssues` from `src/utils/helpers.ts`: the chain of global
regex replaces that tries to repair malformed JSON. -/
def fixCommonJsonIssues (s : List Char) : List Char :=
  let fixed := trimL s
  let fixed := match idxOfChar '[' fixed with
    | some i => fixed.drop i
    | none => fixed
  let fixed := match lastIdxOfChar ']' fixed with
    | some i => fixed.take (i + 1)
    | none => fixed
  -- /\[\s*([^"'\[\]]+)\s*\]/g  →  ["$1"]
  let fixed := replaceAll
    (RE.cat [RE.ch '[', wsStar, RE.grp (RE.plus (.cls unq1)), wsStar, RE.ch ']'])
    (fun cap => '[' :: qc :: cap.getD [] ++ [qc, ']']) fixed
  -- /,\s*([^"'\[\],]+)\s*(?=,|\])/g  →  , "$1"
  let fixed := replaceAll
    (RE.cat [RE.ch ',', wsStar, RE.grp (RE.plus (.cls unq2)), wsStar,
             RE.look true (RE.alt (RE.ch ',') (RE.ch ']'))])
    (fun cap => ',' :: ' ' :: qc :: cap.getD [] ++ [qc]) fixed
  -- /\[\s*([^"'\[\],]+)\s*,/g  →  ["$1",
  let fixed := replaceAll
    (RE.cat [RE.ch '[', wsStar, RE.grp (RE.plus (.cls unq2)), wsStar, RE.ch ','])
    (fun cap => '[' :: qc :: cap.getD [] ++ [qc, ',']) fixed
  -- /,\s*\]/g  →  ]
  let fixed := replaceAll (RE.cat [RE.ch ',', wsStar, RE.ch ']'])
    (fun _ => [']']) fixed
  -- /,\s*,/g  →  ,
  let fixed := replaceAll (RE.cat [RE.ch ',', wsStar, RE.ch ','])
    (fun _ => [',']) fixed
  -- /"\s+"(?!")/g  →  ", "
  let fixed := replaceAll
    (RE.cat [RE.ch qc, RE.plus (.cls isJsSpace), RE.ch qc, RE.look false (RE.ch qc)])
    (fun _ => [qc, ',', ' ', qc]) fixed
  -- /'/g  →  "
  let fixed := replaceAll (RE.ch sqc) (fun _ => [qc]) fixed
  -- /\\"/g  →  "
  let fixed := replaceAll (RE.cat [RE.ch bsc, RE.ch qc]) (fun _ => [qc]) fixed
  -- /\n/g  →  (space)
  replaceAll (RE.ch nlc) (fun _ => [' ']) fixed

/-! ### `JSON.parse` / `JSON.stringify` (arrays of strings)

At every call site in `extractArray` the parsed text was produced by one of
the four array-literal regexes (or their repair), whose matches consist of
quoted string elements only, so the model implements `JSON.parse` for the
"array of strings" fragment of JSON and answers `none` (= the JS call
throws, or yields a value on which the `typeof item === 'string'` filter
keeps nothing) outside it. -/

def jsonWsC (c : Char) : Bool :=
  c.toNat == 32 || c.toNat == 9 || c.toNat == 10 || c.toNat == 13

def hexVal (c : Char) : Option Nat :=
  if 48 ≤ c.toNat && c.toNat ≤ 57 then some (c.toNat - 48)
  else if 97 ≤ c.toNat && c.toNat ≤ 102 then some (c.toNat - 87)
  else if 65 ≤ c.toNat && c.toNat ≤ 70 then some (c.toNat - 55)
  else none

/-- Body of a JSON string after the opening quote: returns the decoded
content and the remainder after the closing quote. -/
def jpStr (fuel : Nat) (acc cs : List Char) : Option (List Char × List Char) :=
  match fuel with
  | 0 => none
  | f + 1 =>
    match cs with
    | [] => none
    | c :: rest =>
      if c == qc then some (acc.reverse, rest)
      else if c == bsc then
        match rest with
        | [] => none
        | e :: rest' =>
          if e == qc then jpStr f (qc :: acc) rest'
          else if e == bsc then jpStr f (bsc :: acc) rest'
          else if e == '/' then jpStr f ('/' :: acc) rest'
          else if e == 'b' then jpStr f (Char.ofNat 8 :: acc) rest'
          else if e == 'f' then jpStr f (Char.ofNat 12 :: acc) rest'
          else if e == 'n' then jpStr f (nlc :: acc) rest'
          else if e == 'r' then jpStr f (crc :: acc) rest'
          else if e == 't' then jpStr f (Char.ofNat 9 :: acc) rest'
          else if e == 'u' then
            match rest' with
            | h1 :: h2 :: h3 :: h4 :: rest'' =>
              match hexVal h1, hexVal h2, hexVal h3, hexVal h4 with
              | some a, some b, some c', some d =>
                jpStr f (Char.ofNat (((a * 16 + b) * 16 + c') * 16 + d) :: acc) rest''
              | _, _, _, _ => none
            | _ => none
          else none
      else if c.toNat < 32 then none
      else jpStr f (c :: acc) rest

/-- Elements of a JSON string array after the opening bracket (and after
at least one element has been read when `first = false`). -/
def jpElems (fuel : Nat) (acc : List String) (cs : List Char) :
    Option (List String × List Char) :=
  match fuel with
  | 0 => none
  | f + 1 =>
    let cs := cs.dropWhile jsonWsC
    match cs with
    | [] => none
    | c :: rest =>
      if c == qc then
        match jpStr (rest.length + 1) [] rest with
        | none => none
        | some (content, rest') =>
          let rest' := rest'.dropWhile jsonWsC
          match rest' with
          | ']' :: tail => some ((⟨content⟩ :: acc).reverse, tail)
          | ',' :: tail => jpElems f (⟨content⟩ :: acc) tail
          | _ => none
      else none

/-- `JSON.parse`, restricted to arrays of strings (see section comment). -/
def jsonParse (cs : List Char) : Option (List String) :=
  let cs := cs.dropWhile jsonWsC
  match cs with
  | '[' :: rest =>
    let rest := rest.dropWhile jsonWsC
    match rest with
    | ']' :: tail => if (tail.dropWhile jsonWsC).isEmpty then some [] else none
    | _ =>
      match jpElems (rest.length + 1) [] rest with
      | some (elems, tail) =>
        if (tail.dropWhile jsonWsC).isEmpty then some elems else none
      | none => none
  | _ => none

def hexDigit (n : Nat) : Char :=
  if n < 10 then Char.ofNat (48 + n) else Char.ofNat (87 + n)

/-- `JSON.stringify` escaping of one character. -/
def jsonEscapeChar (c : Char) : List Char :=
  if c == qc then [bsc, qc]
  else if c == bsc then [bsc, bsc]
  else if c.toNat == 8 then [bsc, 'b']
  else if c.toNat == 9 then [bsc, 't']
  else if c.toNat == 10 then [bsc, 'n']
  else if c.toNat == 12 then [bsc, 'f']
  else if c.toNat == 13 then [bsc, 'r']
  else if c.toNat < 32 then
    [bsc, 'u', '0', '0', hexDigit (c.toNat / 16), hexDigit (c.toNat % 16)]
  else [c]

/-- `JSON.stringify` of one string. -/
def jsonQuote (s : String) : List Char :=
  qc :: s.data.flatMap jsonEscapeChar ++ [qc]

/-- `JSON.stringify` of a list of strings. -/
def jsonStringify (l : List String) : String :=
  ⟨'[' :: List.intercalate [','] (l.map jsonQuote) ++ [']']⟩

/-! ### `src/utils/helpers.ts`: `extractArray` and `extractTasks` -/

/-- `"[^"]*"` -/
def qdq : RE := RE.cat [RE.ch qc, RE.star (.cls fun c => !(c == qc)), RE.ch qc]

/-- `'[^']*'` -/
def qsq : RE := RE.cat [RE.ch sqc, RE.star (.cls fun c => !(c == sqc)), RE.ch sqc]

/-- `"(?:[^"\\]|\\.)*"` -/
def qdqEsc : RE :=
  RE.cat [RE.ch qc,
    RE.star (RE.alt (.cls fun c => !(c == qc || c == bsc))
                    (RE.cat [RE.ch bsc, dotC])), RE.ch qc]

/-- `'(?:[^'\\]|\\.)*'` -/
def qsqEsc : RE :=
  RE.cat [RE.ch sqc,
    RE.star (RE.alt (.cls fun c => !(c == sqc || c == bsc))
                    (RE.cat [RE.ch bsc, dotC])), RE.ch sqc]

/-- `"(?:[^"\\]|\\.|\n)*"` -/
def qdqEscNl : RE :=
  RE.cat [RE.ch qc,
    RE.star (RE.altL [.cls fun c => !(c == qc || c == bsc),
                      RE.cat [RE.ch bsc, dotC], RE.ch nlc]), RE.ch qc]

/-- `'(?:[^'\\]|\\.|\n)*'` -/
def qsqEscNl : RE :=
  RE.cat [RE.ch sqc,
    RE.star (RE.altL [.cls fun c => !(c == sqc || c == bsc),
                      RE.cat [RE.ch bsc, dotC], RE.ch nlc]), RE.ch sqc]

/-- Strategy 1: `/\[(?:\s*"[^"]*"\s*(?:,\s*"[^"]*"\s*)*)\]/g` -/
def strat1 : RE :=
  RE.cat [RE.ch '[', wsStar, qdq, wsStar,
    RE.star (RE.cat [RE.ch ',', wsStar, qdq, wsStar]), RE.ch ']']

/-- Strategy 2: the single-quote variant. -/
def strat2 : RE :=
  RE.cat [RE.ch '[', wsStar, qsq, wsStar,
    RE.star (RE.cat [RE.ch ',', wsStar, qsq, wsStar]), RE.ch ']']

/-- Strategy 3: the mixed-quote escaped variant. -/
def strat3 : RE :=
  RE.cat [RE.ch '[', wsStar, RE.alt qdqEsc qsqEsc, wsStar,
    RE.star (RE.cat [RE.ch ',', wsStar, RE.alt qdqEsc qsqEsc, wsStar]),
    RE.ch ']']

/-- Strategy 4: `/(\[(?:\s*(?:"(?:[^"\\]|\\.|\n)*"|'(?:[^'\\]|\\.|\n)*')\s*,?)+\s*\])/g` -/
def strat4 : RE :=
  RE.grp (RE.cat [RE.ch '[',
    RE.plus (RE.cat [wsStar, RE.alt qdqEscNl qsqEscNl, wsStar,
                     RE.opt (RE.ch ',')]),
    wsStar, RE.ch ']'])

def strategies : List RE := [strat1, strat2, strat3, strat4]

/-- The `item.trim().length > 0` validity filter applied to parsed arrays
(the `typeof item === 'string'` half always holds, see `jsonParse`). -/
def validFilter (l : List String) : List String :=
  l.filter fun t => !(trimL t.data).isEmpty

/-- The per-match body of `extractArray`'s strategy loop: parse, on failure
repair then parse again, return the valid tasks when non-empty. -/
def tryMatches : List (List Char × Cap) → Option (List String)
  | [] => none
  | (mat, _) :: rest =>
    match jsonParse mat with
    | some parsed =>
      let valid := validFilter parsed
      if !valid.isEmpty then some valid else tryMatches rest
    | none =>
      match jsonParse (fixCommonJsonIssues mat) with
      | some parsed =>
        let valid := validFilter parsed
        if !valid.isEmpty then some valid else tryMatches rest
      | none => tryMatches rest

def tryStrategies : List RE → List Char → Option (List String)
  | [], _ => none
  | s :: ss, cs =>
    match tryMatches (matchAll s cs) with
    | some v => some v
    | none => tryStrategies ss cs

/-- `extractArray` from `src/utils/helpers.ts`. -/
def extractArray (inputStr : String) : List String :=
  if inputStr.data.isEmpty then []
  else
    let cleanedStr := trimL inputStr.data
    if cleanedStr == "[]".data then []
    else
      match tryStrategies strategies cleanedStr with
      | some v => v
      | none => extractTasksFromPlainText ⟨cleanedStr⟩

/-- `extractTasks` from `src/utils/helpers.ts`.  The `try`/`catch` around
the pipeline never fires in the embedding (none of the model functions
fail), so only the main path is present. -/
def extractTasks (text : String) (completedTasks : List String) : List String :=
  if text.data.isEmpty then []
  else
    let cleanedText := trimL text.data
    if cleanedText.isEmpty then []
    else if cleanedText == "[]".data then []
    else
      (((extractArray ⟨cleanedText⟩).filter realTasksFilter).filter
        fun task => !completedTasks.contains task).map removeTaskPrefixFn

/-! ### `src/services/agent-service.ts`: `intelligentTaskFilter`

Numeric comparisons against the `0.7` and `0.6` literals are modelled over
`ℚ` (exact arithmetic in place of IEEE doubles; the thresholds and all
ratios arising from task counts are exactly representable at every input a
run can produce). -/

/-- The progress ratio `createTasksAgent` computes and passes to the
filter: `completed / (completed + remaining + 1)`. -/
def createTasksRat (completed remaining : Nat) : ℚ :=
  (completed : ℚ) / ((completed : ℚ) + (remaining : ℚ) + 1)

structure TaskFilterCtx where
  goal : String
  completedTasks : List String
  remainingTasks : List String
  lastTask : String
  result : String
  progressRat : ℚ

/-- `newTaskLower.split(' ').filter(w => w.length > 3)` -/
def wordsOf (s : List Char) : List (List Char) :=
  (splitOnSub [' '] s).filter fun w => 3 < w.length

/-- The word-overlap dedup test: candidate rejected against one existing
task when `overlap > Math.min(words1.length, words2.length) * 0.6`. -/
def overlapReject (newTask existing : String) : Bool :=
  let words1 := wordsOf (lowerL newTask.data)
  let words2 := wordsOf (lowerL existing.data)
  let overlap := (words1.filter fun w => words2.contains w).length
  decide ((min words1.length words2.length : ℚ) * (6 / 10) < (overlap : ℚ))

/-- `intelligentTaskFilter` from `src/services/agent-service.ts`. -/
def intelligentTaskFilter (newTasks : List String) (ctx : TaskFilterCtx) :
    List String :=
  if newTasks.isEmpty then []
  else if decide ((7 : ℚ) / 10 < ctx.progressRat) && ctx.remainingTasks.length ≤ 2 then []
  else if 4 < ctx.remainingTasks.length then []
  else
    let allExistingTasks := ctx.completedTasks ++ ctx.remainingTasks
    let filteredTasks := newTasks.filter fun t =>
      !(allExistingTasks.any fun ex => overlapReject t ex)
    let limitedTasks := filteredTasks.take 2
    let goalLower := lowerL ctx.goal.data
    if (containsSub "what is".data goalLower ||
        containsSub "explain".data goalLower ||
        containsSub "define".data goalLower) &&
        2 ≤ ctx.completedTasks.length then []
    else limitedTasks

/-! ### `src/services/agent-service.ts`: `MultiProviderLLM.callStreaming`

Modelled as a trace semantics: the call produces the ordered list of
network requests it issues plus its outcome.  The token-status fetch and
the provider response are oracles carried in the environment. -/

/-- Outcome of the GET issued by `checkTokensBeforeRequest` (through
`retryWithBackoff` with 2 attempts). -/
inductive TokenFetch where
  | netFail : TokenFetch
  | ok (canUseTokens : Bool) (tokensRemaining : Int) : TokenFetch
deriving DecidableEq

structure LLMEnv where
  llmProvider : String       -- "" models an unset `modelSettings.llmProvider`
  groqApiKey : String
  openrouterApiKey : String
  cohereApiKey : String
  customApiKey : String
  envGroqKey : String        -- NEXT_PUBLIC_GROQ_API_KEY
  envOpenrouterKey : String
  envCohereKey : String
  sessionToken : String      -- "" models an absent session token
  timeContext : String       -- getTimeContextPrompt()
  tokenFetch : TokenFetch
  providerOk : Bool
  providerText : String
  consumeOk : Bool
deriving DecidableEq

/-- JS `a || b` on strings. -/
def orElseStr (a b : String) : String := if a.isEmpty then b else a

def resolvedProvider (e : LLMEnv) : String := orElseStr e.llmProvider "groq"

/-- `MultiProviderLLM.getApiKey`. -/
def getApiKey (e : LLMEnv) : String :=
  match resolvedProvider e with
  | "groq" => orElseStr e.groqApiKey (orElseStr e.customApiKey e.envGroqKey)
  | "openrouter" => orElseStr e.openrouterApiKey (orElseStr e.customApiKey e.envOpenrouterKey)
  | "cohere" => orElseStr e.cohereApiKey (orElseStr e.customApiKey e.envCohereKey)
  | _ => e.customApiKey

/-- `estimateTokens`: `Math.ceil(text.length / 4)`. -/
def estimateTokens (text : String) : Nat := (text.data.length + 3) / 4

def trimS (s : String) : String := ⟨trimL s.data⟩

inductive NetEv where
  | tokenCheckGet : NetEv
  | tokenConsumePut : NetEv
  | providerPost (provider : String) : NetEv
deriving DecidableEq

inductive CallErr where
  | demoLimitReached : CallErr
  | insufficientDemo (needed : Nat) (remaining : Int) : CallErr
  | noApiKey (provider : String) : CallErr
  | providerHttp (provider : String) : CallErr
deriving DecidableEq

/-- Literal global substring replacement (the `{name}` placeholder
substitution; the placeholder names used at the call sites contain no regex
metacharacters, so `new RegExp(placeholder, 'g')` is a literal search). -/
def replaceSubGo (fuel : Nat) (needle repl rest : List Char) : List Char :=
  match fuel with
  | 0 => rest
  | f + 1 =>
    if needle.isPrefixOf rest && !needle.isEmpty then
      repl ++ replaceSubGo f needle repl (rest.drop needle.length)
    else
      match rest with
      | [] => []
      | c :: rest' => c :: replaceSubGo f needle repl rest'

def replaceSubAll (needle repl s : List Char) : List Char :=
  replaceSubGo (s.length + 1) needle repl s

/-- Variable substitution into the prompt: `{key}` → value. -/
def substVars (prompt : List Char) : List (String × String) → List Char
  | [] => prompt
  | (k, v) :: rest => substVars (replaceSubAll (lbr :: k.data ++ [rbr]) v.data prompt) rest

/-- The prompt after time-context prefix and variable substitution. -/
def processedPrompt (e : LLMEnv) (prompt : String) (vars : List (String × String)) :
    String :=
  ⟨substVars (e.timeContext.data ++ [nlc, nlc] ++ prompt.data) vars⟩

/-- `checkTokensBeforeRequest`: events issued and the error it raises, if
any.  A network failure of the check itself is swallowed (the thrown
message `Token check failed: …` does not contain the lowercase substring
`token`, so the catch block falls through to "continue with request"). -/
def checkTokensBeforeRequest (e : LLMEnv) (prompt : String) :
    List NetEv × Option CallErr :=
  if e.sessionToken.isEmpty then ([], none)
  else
    match e.tokenFetch with
    | .netFail => ([.tokenCheckGet, .tokenCheckGet], none)
    | .ok canUse remaining =>
      ([.tokenCheckGet],
        if !canUse then some .demoLimitReached
        else if remaining < (estimateTokens prompt : Int) then
          some (.insufficientDemo (estimateTokens prompt) remaining)
        else none)

/-- `consumeTokensAfterResponse`: best-effort PUT (two attempts on
failure), never raises. -/
def consumeTokensAfterResponse (e : LLMEnv) : List NetEv :=
  if e.sessionToken.isEmpty then []
  else if e.consumeOk then [.tokenConsumePut] else [.tokenConsumePut, .tokenConsumePut]

/-- `MultiProviderLLM.callStreaming`: token pre-check, then API-key check,
then the provider-specific streaming request (every provider branch issues
its POST with the same shape for the purposes of the trace), then
best-effort consumption reporting. -/
def callStreaming (e : LLMEnv) (prompt : String) (vars : List (String × String)) :
    List NetEv × Except CallErr String :=
  let pp := processedPrompt e prompt vars
  let (evs, errOpt) := checkTokensBeforeRequest e pp
  match errOpt with
  | some err => (evs, .error err)
  | none =>
    let provider := resolvedProvider e
    let apiKey := getApiKey e
    if (trimS apiKey).data.isEmpty then (evs, .error (.noApiKey provider))
    else if e.providerOk then
      (evs ++ [.providerPost provider] ++ consumeTokensAfterResponse e, .ok e.providerText)
    else (evs ++ [.providerPost provider], .error (.providerHttp provider))

/-! ### `src/pages/api/tokens/manage.ts`

The handlers are pure state transformers over the `demo_tokens` table
(a list of records), parameterised by the current time in milliseconds.
JS truthiness of the request-body fields is modelled exactly: an empty
string or the number 0 fails the `!sessionToken || !tokensToConsume`
validation. -/

def DEMO_TOKEN_LIMIT : Int := 10000

def TOKEN_RESET_HOURS : Int := 24

def resetWindowMs : Int := TOKEN_RESET_HOURS * 60 * 60 * 1000

structure TokenRec where
  id : Nat
  sessionToken : String
  cookieId : Option String
  tokensUsed : Int
  tokensRemaining : Int
  resetAt : Int
deriving DecidableEq

abbrev TokenStore := List TokenRec

def updateRec (store : TokenStore) (i : Nat) (f : TokenRec → TokenRec) : TokenStore :=
  store.map fun r => if r.id == i then f r else r

inductive ConsumeResp where
  | badRequest : ConsumeResp
  | notFound : ConsumeResp
  | insufficient (tokensRemaining tokensRequested : Int) : ConsumeResp
  | success (tokensUsed tokensRemaining tokensConsumed resetAt : Int) : ConsumeResp
deriving DecidableEq

/-- `handleConsumeTokens` (PUT). -/
def handleConsumeTokens (now : Int) (sessionToken : String) (tokensToConsume : Int)
    (store : TokenStore) : ConsumeResp × TokenStore :=
  if sessionToken.isEmpty || tokensToConsume == 0 then (.badRequest, store)
  else
    match store.find? fun r => r.sessionToken == sessionToken with
    | none => (.notFound, store)
    | some user =>
      let expired := decide (user.resetAt < now)
      let used := if expired then 0 else user.tokensUsed
      let remaining := if expired then DEMO_TOKEN_LIMIT else user.tokensRemaining
      let store1 := if expired then
          updateRec store user.id fun r =>
            { r with tokensUsed := 0, tokensRemaining := DEMO_TOKEN_LIMIT,
                     resetAt := now + resetWindowMs }
        else store
      if remaining < tokensToConsume then
        (.insufficient remaining tokensToConsume, store1)
      else
        let newUsed := used + tokensToConsume
        let newRemaining := remaining - tokensToConsume
        let newResetAt := now + resetWindowMs
        (.success newUsed newRemaining tokensToConsume newResetAt,
          updateRec store1 user.id fun r =>
            { r with tokensUsed := newUsed, tokensRemaining := newRemaining,
                     resetAt := newResetAt })

inductive StatusResp where
  | badRequest : StatusResp
  | notFound : StatusResp
  | ok (tokensUsed tokensRemaining resetAt : Int) (canUseTokens : Bool) : StatusResp
deriving DecidableEq

/-- `handleGetTokenStatus` (GET); the query is keyed by `sessionToken` when
present, otherwise by `cookieId`. -/
def handleGetTokenStatus (now : Int) (sessionToken cookieId : String)
    (store : TokenStore) : StatusResp × TokenStore :=
  if sessionToken.isEmpty && cookieId.isEmpty then (.badRequest, store)
  else
    let found := if !sessionToken.isEmpty then
        store.find? fun r => r.sessionToken == sessionToken
      else store.find? fun r => r.cookieId == some cookieId
    match found with
    | none => (.notFound, store)
    | some user =>
      if decide (user.resetAt < now) then
        let newResetAt := now + resetWindowMs
        (.ok 0 DEMO_TOKEN_LIMIT newResetAt true,
          updateRec store user.id fun r =>
            { r with tokensUsed := 0, tokensRemaining := DEMO_TOKEN_LIMIT,
                     resetAt := newResetAt })
      else
        (.ok user.tokensUsed user.tokensRemaining user.resetAt
          (decide (0 < user.tokensRemaining)), store)

inductive InitResp where
  | badRequest : InitResp
  | okReset (tokensUsed tokensRemaining resetAt : Int) : InitResp
  | okExisting (tokensUsed tokensRemaining resetAt : Int) : InitResp
  | okNew (tokensUsed tokensRemaining resetAt : Int) : InitResp
deriving DecidableEq

/-- The `session_token = $1 OR (cookie_id IS NOT NULL AND cookie_id = $2)`
lookup of `handleInitializeTokens`. -/
def initLookup (sessionToken : String) (cookieId : Option String) (r : TokenRec) :
    Bool :=
  r.sessionToken == sessionToken ||
    (match r.cookieId, cookieId with
     | some a, some b => a == b
     | _, _ => false)

/-- `handleInitializeTokens` (POST).  `newId` stands for the serial id the
insert would allocate. -/
def handleInitializeTokens (now : Int) (sessionToken : String)
    (cookieId : Option String) (newId : Nat) (store : TokenStore) :
    InitResp × TokenStore :=
  if sessionToken.isEmpty then (.badRequest, store)
  else
    match store.find? (initLookup sessionToken cookieId) with
    | some user =>
      if decide (user.resetAt < now) then
        let newResetAt := now + resetWindowMs
        (.okReset 0 DEMO_TOKEN_LIMIT newResetAt,
          updateRec store user.id fun r =>
            { r with tokensUsed := 0, tokensRemaining := DEMO_TOKEN_LIMIT,
                     resetAt := newResetAt, sessionToken := sessionToken,
                     cookieId := cookieId })
      else
        (.okExisting user.tokensUsed user.tokensRemaining user.resetAt,
          updateRec store user.id fun r =>
            { r with sessionToken := sessionToken, cookieId := cookieId })
    | none =>
      let newRec : TokenRec :=
        { id := newId, sessionToken := sessionToken, cookieId := cookieId,
          tokensUsed := 0, tokensRemaining := DEMO_TOKEN_LIMIT,
          resetAt := now + resetWindowMs }
      (.okNew 0 DEMO_TOKEN_LIMIT (now + resetWindowMs), store ++ [newRec])

/-! ### `src/components/AutonomousAgent.ts`: the orchestrator loop

The loop's task queue lives in the UI message store (`components/stores`,
reached through the `renderMessage` sink and the page's `handleAddMessage`).
That store module is not part of the provided sources, so its task-tracking
behaviour is modelled from the spec (§3, §4.5): task messages create a
STARTED task on first sight of a task id and update the stored status on
later sights; the list is append-only.  Everything else below is a direct
embedding of `AutonomousAgent.loop` and its helpers. -/

inductive TStat where
  | started | executing | completed | final
deriving DecidableEq

inductive AgMode where
  | automatic | pauseMode
deriving DecidableEq

inductive PlayCtl where
  | play | pause
deriving DecidableEq

structure MTask where
  taskId : Nat
  parentId : Option Nat
  value : String
  info : Option String
  status : TStat
deriving DecidableEq

inductive AMsg where
  | goalMsg (value : String) : AMsg
  | thinking (taskId : Option Nat) : AMsg
  | taskMsg (t : MTask) : AMsg
  | analysisMsg (isSearch : Bool) (arg : String) (taskId : Option Nat) : AMsg
  | loopLimit (taskId : Option Nat) : AMsg
  | completedAll (taskId : Option Nat) : AMsg
  | manualShutdown (taskId : Option Nat) : AMsg
deriving DecidableEq

structure AgentSt where
  isRunning : Bool
  mode : AgMode
  playbackControl : PlayCtl
  webSearchEnabled : Bool
  numLoops : Nat
  nextId : Nat
  currentTaskId : Option Nat
  tasks : List MTask
  completedTasks : List String
  msgs : List AMsg
  shutdownCount : Nat
deriving DecidableEq

/-- Modelled from the spec: the message store's reaction to one task
message (update the status/info of a known task id, append a new task
otherwise). -/
def storeApplyTask (tasks : List MTask) (t : MTask) : List MTask :=
  if tasks.any fun x => x.taskId == t.taskId then
    tasks.map fun x => if x.taskId == t.taskId then t else x
  else tasks ++ [t]

/-- `sendMessage`: delivered (and reflected in the store) only while the
agent is running. -/
def sendMsg (s : AgentSt) (m : AMsg) : AgentSt :=
  if s.isRunning then
    { s with
      msgs := s.msgs ++ [m],
      tasks := match m with
        | .taskMsg t => storeApplyTask s.tasks t
        | _ => s.tasks }
  else s

/-- `getRemainingTasks`. -/
def remainingOf (s : AgentSt) : List MTask :=
  s.tasks.filter fun t => t.status == .started

/-- `conditionalPause`. -/
def conditionalPause (s : AgentSt) : AgentSt :=
  if s.mode != .pauseMode then s
  else
    { s with
      isRunning := !(s.playbackControl == .pause),
      playbackControl :=
        if s.playbackControl == .play then .pause else s.playbackControl }

/-- The caller-supplied `shutdown` callback (it does not flip
`isRunning`; we count its invocations). -/
def doShutdown (s : AgentSt) : AgentSt :=
  { s with shutdownCount := s.shutdownCount + 1 }

/-- The planning-service skills the loop calls, abstracted as oracles
(each receives the full current state, which subsumes every argument the
source passes). -/
structure PlanOracle where
  analyzeA : AgentSt → String → Bool × String
  executeA : AgentSt → String → Bool × String → String
  createA : AgentSt → List String

/-- Emission of the freshly created follow-up (or initial) tasks, one task
message per value. -/
def spawnTasks (parent : Option Nat) : AgentSt → List String → AgentSt
  | s, [] => s
  | s, v :: vs =>
    let t : MTask :=
      { taskId := s.nextId, parentId := parent, value := v, info := none,
        status := .started }
    spawnTasks parent (sendMsg { s with nextId := s.nextId + 1 } (.taskMsg t)) vs

@[simp] theorem sendMsg_numLoops (s : AgentSt) (m : AMsg) :
    (sendMsg s m).numLoops = s.numLoops := by
  simp only [sendMsg]; split <;> rfl

@[simp] theorem doShutdown_numLoops (s : AgentSt) :
    (doShutdown s).numLoops = s.numLoops := rfl

@[simp] theorem spawnTasks_numLoops (parent : Option Nat) (vs : List String)
    (s : AgentSt) : (spawnTasks parent s vs).numLoops = s.numLoops := by
  induction vs generalizing s with
  | nil => rfl
  | cons v vs ih => simp only [spawnTasks, ih, sendMsg_numLoops]

@[simp] theorem conditionalPause_numLoops (s : AgentSt) :
    (conditionalPause s).numLoops = s.numLoops := by
  simp only [conditionalPause]; split <;> rfl

/-- Steps d–f of one `loop()` body: mark the popped task EXECUTING, think,
analyze (when web search is on), execute, mark COMPLETED, record the value,
think again. -/
def loopStepPre (o : PlanOracle) (s : AgentSt) (ct : MTask) : AgentSt :=
  let s := sendMsg s (.taskMsg { ct with status := .executing })
  let s := { s with currentTaskId := some ct.taskId }
  let s := sendMsg s (.thinking (some ct.taskId))
  let analysis :=
    if s.webSearchEnabled then o.analyzeA s ct.value else (false, "")
  let s :=
    if s.webSearchEnabled then
      sendMsg s (.analysisMsg analysis.1 analysis.2 (some ct.taskId))
    else s
  let result := o.executeA s ct.value analysis
  let s := sendMsg s (.taskMsg { ct with status := .completed, info := some result })
  let s := { s with completedTasks := s.completedTasks ++ [ct.value] }
  sendMsg s (.thinking (some ct.taskId))

/-- One full body step of `loop()` from the point where a current task has
been popped (steps d–g of the run protocol). -/
def loopStep (o : PlanOracle) (s : AgentSt) (ct : MTask) : AgentSt :=
  let s := loopStepPre o s ct
  let newVals := o.createA s
  let s := spawnTasks (some ct.taskId) s newVals
  if newVals.isEmpty then sendMsg s (.taskMsg { ct with status := .final }) else s

@[simp] theorem loopStepPre_numLoops (o : PlanOracle) (s : AgentSt) (ct : MTask) :
    (loopStepPre o s ct).numLoops = s.numLoops := by
  simp only [loopStepPre]
  split <;> simp only [sendMsg_numLoops]

@[simp] theorem loopStep_numLoops (o : PlanOracle) (s : AgentSt) (ct : MTask) :
    (loopStep o s ct).numLoops = s.numLoops := by
  simp only [loopStep]
  split <;>
    simp only [sendMsg_numLoops, spawnTasks_numLoops, loopStepPre_numLoops]

/-- `AutonomousAgent.loop`. -/
def loop (o : PlanOracle) (maxLoops : Nat) (s : AgentSt) : AgentSt :=
  let s' := conditionalPause s
  if !s'.isRunning then s'
  else if (remainingOf s').isEmpty then
    doShutdown (sendMsg s' (.completedAll s'.currentTaskId))
  else
    let s'' := { s' with numLoops := s'.numLoops + 1 }
    if maxLoops < s''.numLoops then
      doShutdown (sendMsg s'' (.loopLimit s''.currentTaskId))
    else
      match remainingOf s'' with
      | [] => s''   -- unreachable: the queue was checked non-empty above
      | ct :: _ => loop o maxLoops (loopStep o s'' ct)
  termination_by maxLoops + 1 - s.numLoops
  decreasing_by
    unfold s'' s' at *
    simp only [loopStep_numLoops, conditionalPause_numLoops] at *
    omega

/-- `AutonomousAgent.maxLoops` (constants from `src/utils/constants.ts`).
`customMaxLoops || DEFAULT_MAX_LOOPS_CUSTOM_API_KEY` follows JS
truthiness: a configured 0 falls back to the default. -/
def DEFAULT_MAX_LOOPS_FREE : Nat := 4

def DEFAULT_MAX_LOOPS_PAID : Nat := 16

def DEFAULT_MAX_LOOPS_CUSTOM_API_KEY : Nat := 50

def maxLoopsFn (hasValidApiKey : Bool) (hasSubscription : Bool)
    (customMaxLoops : Nat) : Nat :=
  if hasValidApiKey then
    if customMaxLoops == 0 then DEFAULT_MAX_LOOPS_CUSTOM_API_KEY else customMaxLoops
  else if hasSubscription then DEFAULT_MAX_LOOPS_PAID else DEFAULT_MAX_LOOPS_FREE

/-! ## Claim C1: loop termination at the max-loop budget -/

/-- Task-id freshness invariant: every stored task id is below the
id counter, so a newly spawned task is really appended (never treated as a
status update). -/
def AgentInv (s : AgentSt) : Prop := ∀ t ∈ s.tasks, t.taskId < s.nextId

@[simp] theorem sendMsg_isRunning (s : AgentSt) (m : AMsg) :
    (sendMsg s m).isRunning = s.isRunning := by
  simp only [sendMsg]; split <;> rfl

@[simp] theorem sendMsg_mode (s : AgentSt) (m : AMsg) :
    (sendMsg s m).mode = s.mode := by
  simp only [sendMsg]; split <;> rfl

@[simp] theorem sendMsg_nextId (s : AgentSt) (m : AMsg) :
    (sendMsg s m).nextId = s.nextId := by
  simp only [sendMsg]; split <;> rfl

@[simp] theorem sendMsg_shutdownCount (s : AgentSt) (m : AMsg) :
    (sendMsg s m).shutdownCount = s.shutdownCount := by
  simp only [sendMsg]; split <;> rfl

theorem sendMsg_msgs_run (s : AgentSt) (m : AMsg) (h : s.isRunning = true) :
    (sendMsg s m).msgs = s.msgs ++ [m] := by
  simp only [sendMsg, h, if_true]

theorem sendMsg_tasks_nontask (s : AgentSt) (m : AMsg)
    (h : ∀ t, m ≠ .taskMsg t) : (sendMsg s m).tasks = s.tasks := by
  simp only [sendMsg]
  split
  · cases m with
    | taskMsg t => exact absurd rfl (h t)
    | _ => rfl
  · rfl

theorem sendMsg_tasks_task (s : AgentSt) (t : MTask) (h : s.isRunning = true) :
    (sendMsg s (.taskMsg t)).tasks = storeApplyTask s.tasks t := by
  simp only [sendMsg, h, if_true]

theorem storeApplyTask_fresh (tasks : List MTask) (t : MTask)
    (h : ∀ x ∈ tasks, x.taskId ≠ t.taskId) :
    storeApplyTask tasks t = tasks ++ [t] := by
  unfold storeApplyTask
  rw [if_neg]
  simp only [List.any_eq_true, not_exists, not_and]
  intro x hx
  simp only [beq_iff_eq]
  exact h x hx

theorem AgentInv_sendMsg (s : AgentSt) (m : AMsg) (h : AgentInv s)
    (ht : ∀ t, m = .taskMsg t → t.taskId < s.nextId) :
    AgentInv (sendMsg s m) := by
  intro x hx
  rw [sendMsg_nextId]
  simp only [sendMsg] at hx
  split at hx
  · revert hx
    cases m with
    | taskMsg t =>
      simp only []
      unfold storeApplyTask
      split
      · intro hx
        rcases List.mem_map.mp hx with ⟨y, hy, hxy⟩
        by_cases hid : (y.taskId == t.taskId) = true
        · rw [if_pos hid] at hxy
          subst hxy
          exact ht t rfl
        · rw [if_neg hid] at hxy
          subst hxy
          exact h y hy
      · intro hx
        rcases List.mem_append.mp hx with hy | hy
        · exact h x hy
        · rw [List.mem_singleton.mp hy]
          exact ht t rfl
    | goalMsg v => exact fun hx => h x hx
    | thinking tid => exact fun hx => h x hx
    | analysisMsg a b c => exact fun hx => h x hx
    | loopLimit tid => exact fun hx => h x hx
    | completedAll tid => exact fun hx => h x hx
    | manualShutdown tid => exact fun hx => h x hx
  · exact h x hx

theorem conditionalPause_auto (s : AgentSt) (h : s.mode = .automatic) :
    conditionalPause s = s := by
  unfold conditionalPause
  rw [if_pos]
  rw [h]
  decide

/-- Spawning a non-empty batch of follow-up tasks appends fresh STARTED
tasks, preserving the invariant, the run flag and mode. -/
theorem spawnTasks_spec (p : Option Nat) (vs : List String) :
    ∀ s : AgentSt, s.isRunning = true → AgentInv s →
      ∃ ts : List MTask,
        (spawnTasks p s vs).tasks = s.tasks ++ ts ∧
        ts.length = vs.length ∧
        (∀ t ∈ ts, t.status = .started) ∧
        AgentInv (spawnTasks p s vs) := by
  induction vs with
  | nil =>
    intro s h1 h2
    exact ⟨[], by simp [spawnTasks], rfl, by simp, h2⟩
  | cons v vs ih =>
    intro s h1 h2
    have hfresh : ∀ x ∈ s.tasks, x.taskId ≠ s.nextId := by
      intro x hx
      have := h2 x hx
      omega
    have htasks1 :
        (sendMsg { s with nextId := s.nextId + 1 }
          (.taskMsg { taskId := s.nextId, parentId := p, value := v,
                      info := none, status := .started })).tasks =
          s.tasks ++ [{ taskId := s.nextId, parentId := p, value := v,
                        info := none, status := .started }] := by
      rw [sendMsg_tasks_task _ _
        (show ({ s with nextId := s.nextId + 1 } : AgentSt).isRunning = true from h1)]
      exact storeApplyTask_fresh _ _ fun x hx => hfresh x hx
    have hinv1 : AgentInv (sendMsg { s with nextId := s.nextId + 1 }
        (.taskMsg { taskId := s.nextId, parentId := p, value := v,
                    info := none, status := .started })) := by
      intro x hx
      rw [sendMsg_nextId]
      rw [htasks1] at hx
      show x.taskId < s.nextId + 1
      rcases List.mem_append.mp hx with hy | hy
      · exact Nat.lt_succ_of_lt (h2 x hy)
      · rw [List.mem_singleton.mp hy]
        exact Nat.lt_succ_self _
    rcases ih _ (by simp [h1]) hinv1 with ⟨ts, ha, hb, hc, hd⟩
    refine ⟨{ taskId := s.nextId, parentId := p, value := v, info := none,
              status := .started } :: ts, ?_, by simp [hb], ?_, hd⟩
    · rw [spawnTasks, ha, htasks1, List.append_assoc]
      rfl
    · intro t htm
      rcases List.mem_cons.mp htm with h | h
      · rw [h]
      · exact hc t h

@[simp] theorem spawnTasks_isRunning (p : Option Nat) (vs : List String)
    (s : AgentSt) : (spawnTasks p s vs).isRunning = s.isRunning := by
  induction vs generalizing s with
  | nil => rfl
  | cons v vs ih => simp only [spawnTasks, ih, sendMsg_isRunning]

@[simp] theorem spawnTasks_mode (p : Option Nat) (vs : List String)
    (s : AgentSt) : (spawnTasks p s vs).mode = s.mode := by
  induction vs generalizing s with
  | nil => rfl
  | cons v vs ih => simp only [spawnTasks, ih, sendMsg_mode]

@[simp] theorem spawnTasks_shutdownCount (p : Option Nat) (vs : List String)
    (s : AgentSt) : (spawnTasks p s vs).shutdownCount = s.shutdownCount := by
  induction vs generalizing s with
  | nil => rfl
  | cons v vs ih => simp only [spawnTasks, ih, sendMsg_shutdownCount]

@[simp] theorem loopStepPre_isRunning (o : PlanOracle) (s : AgentSt) (ct : MTask) :
    (loopStepPre o s ct).isRunning = s.isRunning := by
  simp only [loopStepPre]
  split <;> simp only [sendMsg_isRunning]

@[simp] theorem loopStepPre_mode (o : PlanOracle) (s : AgentSt) (ct : MTask) :
    (loopStepPre o s ct).mode = s.mode := by
  simp only [loopStepPre]
  split <;> simp only [sendMsg_mode]

@[simp] theorem loopStepPre_shutdownCount (o : PlanOracle) (s : AgentSt) (ct : MTask) :
    (loopStepPre o s ct).shutdownCount = s.shutdownCount := by
  simp only [loopStepPre]
  split <;> simp only [sendMsg_shutdownCount]

@[simp] theorem loopStepPre_nextId (o : PlanOracle) (s : AgentSt) (ct : MTask) :
    (loopStepPre o s ct).nextId = s.nextId := by
  simp only [loopStepPre]
  split <;> simp only [sendMsg_nextId]

/-- A record update that touches neither `tasks` nor `nextId` preserves
the invariant (definitionally). -/
theorem agentInv_setCurrent (s : AgentSt) (x : Option Nat) (h : AgentInv s) :
    AgentInv { s with currentTaskId := x } := h

theorem agentInv_setCompleted (s : AgentSt) (x : List String) (h : AgentInv s) :
    AgentInv { s with completedTasks := x } := h

theorem loopStepPre_inv (o : PlanOracle) (s : AgentSt) (ct : MTask)
    (hinv : AgentInv s) (hct : ct.taskId < s.nextId) :
    AgentInv (loopStepPre o s ct) := by
  simp only [loopStepPre]
  split
  · refine AgentInv_sendMsg _ _ ?_ (by intro t h; cases h)
    refine agentInv_setCompleted _ _ ?_
    refine AgentInv_sendMsg _ _ ?_ ?_
    · refine AgentInv_sendMsg _ _ ?_ (by intro t h; cases h)
      refine AgentInv_sendMsg _ _ ?_ (by intro t h; cases h)
      refine agentInv_setCurrent _ _ ?_
      refine AgentInv_sendMsg _ _ hinv ?_
      intro t h
      cases h
      exact hct
    · intro t h
      cases h
      show ct.taskId < _
      simp only [sendMsg_nextId]
      exact hct
  · refine AgentInv_sendMsg _ _ ?_ (by intro t h; cases h)
    refine agentInv_setCompleted _ _ ?_
    refine AgentInv_sendMsg _ _ ?_ ?_
    · refine AgentInv_sendMsg _ _ ?_ (by intro t h; cases h)
      refine agentInv_setCurrent _ _ ?_
      refine AgentInv_sendMsg _ _ hinv ?_
      intro t h
      cases h
      exact hct
    · intro t h
      cases h
      show ct.taskId < _
      simp only [sendMsg_nextId]
      exact hct

@[simp] theorem loopStep_isRunning (o : PlanOracle) (s : AgentSt) (ct : MTask) :
    (loopStep o s ct).isRunning = s.isRunning := by
  simp only [loopStep]
  split <;>
    simp only [sendMsg_isRunning, spawnTasks_isRunning, loopStepPre_isRunning]

@[simp] theorem loopStep_mode (o : PlanOracle) (s : AgentSt) (ct : MTask) :
    (loopStep o s ct).mode = s.mode := by
  simp only [loopStep]
  split <;>
    simp only [sendMsg_mode, spawnTasks_mode, loopStepPre_mode]

@[simp] theorem loopStep_shutdownCount (o : PlanOracle) (s : AgentSt) (ct : MTask) :
    (loopStep o s ct).shutdownCount = s.shutdownCount := by
  simp only [loopStep]
  split <;>
    simp only [sendMsg_shutdownCount, spawnTasks_shutdownCount,
      loopStepPre_shutdownCount]

/-- After one loop body with a non-empty `CreateTasks` answer, the STARTED
queue is again non-empty and the invariant holds. -/
theorem loopStep_spec (o : PlanOracle) (horacle : ∀ s', o.createA s' ≠ [])
    (s : AgentSt) (ct : MTask) (hrun : s.isRunning = true) (hinv : AgentInv s)
    (hct : ct.taskId < s.nextId) :
    remainingOf (loopStep o s ct) ≠ [] ∧ AgentInv (loopStep o s ct) := by
  have hrunP : (loopStepPre o s ct).isRunning = true := by
    rw [loopStepPre_isRunning]; exact hrun
  have hinvP : AgentInv (loopStepPre o s ct) := loopStepPre_inv o s ct hinv hct
  rcases spawnTasks_spec (some ct.taskId) (o.createA (loopStepPre o s ct))
      (loopStepPre o s ct) hrunP hinvP with ⟨ts, htasks, hlen, hstat, hinvS⟩
  unfold loopStep
  simp only []
  rw [if_neg (by simp [horacle (loopStepPre o s ct)])]
  refine ⟨?_, hinvS⟩
  unfold remainingOf
  rw [htasks, List.filter_append]
  have hts : ts ≠ [] := by
    intro hnil
    have := horacle (loopStepPre o s ct)
    rw [hnil] at hlen
    exact this (List.eq_nil_of_length_eq_zero hlen.symm)
  have : List.filter (fun t => t.status == TStat.started) ts = ts :=
    List.filter_eq_self.mpr (by intro a ha; simp [hstat a ha])
  rw [this]
  simp [hts]

@[simp] theorem doShutdown_msgs (s : AgentSt) : (doShutdown s).msgs = s.msgs := rfl

@[simp] theorem doShutdown_scount (s : AgentSt) :
    (doShutdown s).shutdownCount = s.shutdownCount + 1 := rfl

/-- The loop invariant run: starting with `n` loops of budget left, a
never-empty queue and a Planning Service that always proposes at least one
follow-up task, the run ends with the counter at `L + 1`, the loop-limit
message as the last emitted message, and exactly one shutdown call. -/
theorem loop_spec (o : PlanOracle) (L : Nat) (horacle : ∀ s', o.createA s' ≠ []) :
    ∀ (n : Nat) (s : AgentSt), s.mode = .automatic → s.isRunning = true →
      remainingOf s ≠ [] → AgentInv s → s.numLoops + n = L →
      (loop o L s).numLoops = L + 1 ∧
      (∃ tid, (loop o L s).msgs.getLast? = some (.loopLimit tid)) ∧
      (loop o L s).shutdownCount = s.shutdownCount + 1 := by
  intro n
  induction n with
  | zero =>
    intro s hmode hrun hrem hinv hL
    have hrem' : (remainingOf s).isEmpty = false := by
      cases hne : remainingOf s with
      | nil => exact absurd hne hrem
      | cons a l => rfl
    rw [loop, conditionalPause_auto s hmode]
    simp only []
    rw [if_neg (by simp [hrun]), if_neg (by simp [hrem']),
      if_pos (show L < ({ s with numLoops := s.numLoops + 1 } : AgentSt).numLoops
        from show L < s.numLoops + 1 by omega)]
    refine ⟨?_, ⟨s.currentTaskId, ?_⟩, ?_⟩
    · rw [doShutdown_numLoops, sendMsg_numLoops]
      show s.numLoops + 1 = L + 1
      omega
    · rw [doShutdown_msgs,
        sendMsg_msgs_run _ _
          (show ({ s with numLoops := s.numLoops + 1 } : AgentSt).isRunning = true
            from hrun)]
      exact List.getLast?_concat _
    · rw [doShutdown_scount, sendMsg_shutdownCount]
  | succ m ih =>
    intro s hmode hrun hrem hinv hL
    have hrem' : (remainingOf s).isEmpty = false := by
      cases hne : remainingOf s with
      | nil => exact absurd hne hrem
      | cons a l => rfl
    rw [loop, conditionalPause_auto s hmode]
    simp only []
    rw [if_neg (by simp [hrun]), if_neg (by simp [hrem']),
      if_neg (show ¬ L < ({ s with numLoops := s.numLoops + 1 } : AgentSt).numLoops
        from show ¬ L < s.numLoops + 1 by omega)]
    cases hne : remainingOf s with
    | nil => exact absurd hne hrem
    | cons ct rest =>
      have hne' : remainingOf { s with numLoops := s.numLoops + 1 } = ct :: rest := hne
      rw [hne']
      have hmem : ct ∈ s.tasks := by
        have hm : ct ∈ remainingOf s := by
          rw [hne]; exact List.mem_cons_self _ _
        exact (List.mem_filter.mp hm).1
      have hct : ct.taskId < s.nextId := hinv ct hmem
      obtain ⟨hrem2, hinv2⟩ :=
        loopStep_spec o horacle { s with numLoops := s.numLoops + 1 } ct
          (show _ = true from hrun) (show AgentInv _ from hinv)
          (show ct.taskId < _ from hct)
      have h1 := ih (loopStep o { s with numLoops := s.numLoops + 1 } ct)
        (by rw [loopStep_mode]; exact hmode)
        (by rw [loopStep_isRunning]; exact hrun)
        hrem2 hinv2
        (by rw [loopStep_numLoops]
            show s.numLoops + 1 + m = L
            omega)
      refine ⟨h1.1, h1.2.1, ?_⟩
      rw [h1.2.2, loopStep_shutdownCount]

/-- C1: in Automatic mode, with a max-loop budget `L` and CreateTasks
returning at least one new task at every call (so the STARTED queue never
empties), `loop()` terminates after exactly `L + 1` iterations: the loop
counter ends at `L + 1` (its first value exceeding `L`), the loop-limit
message is the last message emitted, and the shutdown callback is invoked
exactly once, on that final iteration. -/
theorem c1_loop_termination (o : PlanOracle) (L : Nat) (s : AgentSt)
    (hmode : s.mode = .automatic) (hrun : s.isRunning = true)
    (hrem : remainingOf s ≠ []) (hinv : AgentInv s)
    (horacle : ∀ s', o.createA s' ≠ []) (h0 : s.numLoops = 0) :
    (loop o L s).numLoops = L + 1 ∧
    (∃ tid, (loop o L s).msgs.getLast? = some (.loopLimit tid)) ∧
    (loop o L s).shutdownCount = s.shutdownCount + 1 :=
  loop_spec o L horacle L s hmode hrun hrem hinv (by omega)

/-- C1 (witness): the termination statement at a concrete one-task run
with budget `L = 0` and a planner that always proposes one follow-up. -/
theorem c1_witness :
    (loop
        { analyzeA := fun _ _ => (false, ""), executeA := fun _ _ _ => "done",
          createA := fun _ => ["Research the next step"] } 0
        { isRunning := true, mode := .automatic, playbackControl := .play,
          webSearchEnabled := false, numLoops := 0, nextId := 1,
          currentTaskId := none,
          tasks := [{ taskId := 0, parentId := none, value := "Start",
                      info := none, status := .started }],
          completedTasks := [], msgs := [], shutdownCount := 0 }).numLoops = 0 + 1 ∧
    (∃ tid, (loop
        { analyzeA := fun _ _ => (false, ""), executeA := fun _ _ _ => "done",
          createA := fun _ => ["Research the next step"] } 0
        { isRunning := true, mode := .automatic, playbackControl := .play,
          webSearchEnabled := false, numLoops := 0, nextId := 1,
          currentTaskId := none,
          tasks := [{ taskId := 0, parentId := none, value := "Start",
                      info := none, status := .started }],
          completedTasks := [], msgs := [], shutdownCount := 0 }).msgs.getLast? =
      some (.loopLimit tid)) ∧
    (loop
        { analyzeA := fun _ _ => (false, ""), executeA := fun _ _ _ => "done",
          createA := fun _ => ["Research the next step"] } 0
        { isRunning := true, mode := .automatic, playbackControl := .play,
          webSearchEnabled := false, numLoops := 0, nextId := 1,
          currentTaskId := none,
          tasks := [{ taskId := 0, parentId := none, value := "Start",
                      info := none, status := .started }],
          completedTasks := [], msgs := [], shutdownCount := 0 }).shutdownCount =
      0 + 1 :=
  c1_loop_termination _ 0 _ rfl rfl (by decide)
    (by intro t ht; rw [List.mem_singleton.mp ht]; decide)
    (fun _ => List.cons_ne_nil _ _) rfl

end AutoNext

namespace AutoNext

/-! ## Claim C7: prefix-stripping idempotence -/

/-- C7 (counterexample): `removeTaskPrefix` is not idempotent.  On
`"Task Task x"` the regex strips the leading `"Task "` (second alternative,
all optional parts empty), leaving `"Task x"`, which still begins with a
strippable prefix, so a second application strips again. -/
theorem c7_counterexample :
    removeTaskPrefixFn (removeTaskPrefixFn "Task Task x") ≠
      removeTaskPrefixFn "Task Task x" := by decide

/-- C7 (amended): `removeTaskPrefix` strips at most one prefix layer, so it
is idempotent exactly on the strings whose stripped form does not itself
begin with a task prefix. -/
theorem c7_amended (s : String)
    (h : matchAt taskPrefixPat (removeTaskPrefixFn s).data = none) :
    removeTaskPrefixFn (removeTaskPrefixFn s) = removeTaskPrefixFn s := by
  generalize ht : removeTaskPrefixFn s = t at h ⊢
  unfold removeTaskPrefixFn
  rw [h]

/-- C7 (witness): the amended statement applied at `"1. analyze data"`,
whose stripped form `". analyze data"` does not begin with a prefix. -/
theorem c7_witness :
    removeTaskPrefixFn (removeTaskPrefixFn "1. analyze data") =
      removeTaskPrefixFn "1. analyze data" :=
  c7_amended "1. analyze data" (by decide)

/-! ## Claim C2: extractor round-trip

Infrastructure: the behaviour of the backtracking matcher on the strings
`JSON.stringify` produces from lists of plain ASCII quote-free strings. -/

/-- Plain character: printable ASCII, not a double quote. -/
def PlainC (c : Char) : Prop := 32 ≤ c.toNat ∧ c.toNat ≤ 126 ∧ c ≠ qc

theorem reM_cls_nil (f : Nat) (p : Char → Bool) : reM f (.cls p) [] = [] := by
  cases f <;> rfl

theorem reM_cls_neg (f : Nat) (p : Char → Bool) (c : Char) (cs : List Char)
    (h : p c = false) : reM f (.cls p) (c :: cs) = [] := by
  cases f with
  | zero => rfl
  | succ f => simp [reM, h]

theorem reM_cls_pos (f : Nat) (p : Char → Bool) (c : Char) (cs : List Char)
    (h : p c = true) (hf : 1 ≤ f) : reM f (.cls p) (c :: cs) = [(cs, none)] := by
  cases f with
  | zero => omega
  | succ f => simp [reM, h]

theorem reM_seq (f : Nat) (a b : RE) (cs : List Char) (hf : 1 ≤ f) :
    reM f (.seq a b) cs =
      (reM (f - 1) a cs).flatMap fun pa =>
        (reM (f - 1) b pa.1).map fun pb => (pb.1, mergeCap pb.2 pa.2) := by
  cases f with
  | zero => omega
  | succ f => rfl

theorem mergeCap_none_right (c : Cap) : mergeCap c none = c := by
  cases c <;> rfl

theorem map_mergeCap_none (res : MRes) :
    (res.map fun pb => (pb.1, mergeCap pb.2 none)) = res := by
  induction res with
  | nil => rfl
  | cons x xs ih =>
    simp only [List.map_cons, ih]
    cases x with
    | mk u v => cases v <;> rfl

theorem filter_lt_keep (x : List Char × Cap) (n : Nat) (h : x.1.length < n) :
    List.filter (fun pa => decide (pa.1.length < n)) [x] = [x] := by
  simp [h]

/-- Results of `(cls p)*` on `a ++ b` where `a` is a maximal run of
`p`-characters: suffixes in greedy order (longest consumption first). -/
def starClsRes : List Char → List Char → MRes
  | [], b => [(b, none)]
  | c :: a, b => starClsRes a b ++ [(c :: (a ++ b), none)]

theorem reM_star_cls (p : Char → Bool) :
    ∀ (a : List Char) (b : List Char) (f : Nat), (∀ c ∈ a, p c = true) →
      (∀ c, b.head? = some c → p c = false) → a.length < f →
      reM f (.star (.cls p)) (a ++ b) = starClsRes a b := by
  intro a
  induction a with
  | nil =>
    intro b f _ hb hf
    obtain ⟨f', rfl⟩ : ∃ f', f = f' + 1 := ⟨f - 1, by omega⟩
    show reM (f' + 1) (.star (.cls p)) b = [(b, none)]
    simp only [reM]
    cases b with
    | nil => simp [reM_cls_nil]
    | cons c b' => simp [reM_cls_neg f' p c b' (hb c rfl)]
  | cons c a ih =>
    intro b f ha hb hf
    obtain ⟨f', rfl⟩ : ∃ f', f = f' + 1 := ⟨f - 1, by omega⟩
    have hlen : a.length < f' := by simp at hf; omega
    simp only [List.cons_append, reM,
      reM_cls_pos f' p c (a ++ b) (ha c (List.mem_cons_self c a)) (by omega)]
    rw [filter_lt_keep _ _ (by simp)]
    simp only [List.flatMap_cons, List.flatMap_nil, List.append_nil]
    rw [ih b f' (fun x hx => ha x (List.mem_cons_of_mem c hx)) hb hlen,
      map_mergeCap_none]
    rfl

theorem flatMap_single (x : List Char × Cap) (g : List Char × Cap → MRes) :
    ([x] : MRes).flatMap g = g x := by simp

theorem reM_seq_fail (f : Nat) (a b : RE) (cs : List Char)
    (h : reM (f - 1) a cs = []) : reM f (.seq a b) cs = [] := by
  cases f with
  | zero => rfl
  | succ f =>
    have h' : reM f a cs = [] := h
    simp only [reM, h', List.flatMap_nil]

theorem reM_star_body_nil (f : Nat) (r : RE) (cs : List Char)
    (h : reM (f - 1) r cs = []) (hf : 1 ≤ f) :
    reM f (.star r) cs = [(cs, none)] := by
  cases f with
  | zero => omega
  | succ f =>
    have h' : reM f r cs = [] := h
    simp only [reM, h', List.filter_nil, List.flatMap_nil, List.nil_append]

theorem reM_ch_pos (f : Nat) (c : Char) (cs : List Char) (hf : 1 ≤ f) :
    reM f (RE.ch c) (c :: cs) = [(cs, none)] := by
  show reM f (.cls fun x => x == c) (c :: cs) = [(cs, none)]
  exact reM_cls_pos _ _ _ _ (by simp) hf

theorem reM_ch_neg (f : Nat) (c d : Char) (cs : List Char)
    (h : (d == c) = false) : reM f (RE.ch c) (d :: cs) = [] := by
  show reM f (.cls fun x => x == c) (d :: cs) = []
  exact reM_cls_neg _ _ _ _ h

theorem reM_ch_nil (f : Nat) (c : Char) : reM f (RE.ch c) [] = [] := by
  show reM f (.cls fun x => x == c) [] = []
  exact reM_cls_nil _ _

/-- Escaped body of a JSON string (the part between the quotes). -/
def escJ (s : String) : List Char := s.data.flatMap jsonEscapeChar

theorem jsonQuote_eq (s : String) : jsonQuote s = qc :: (escJ s ++ [qc]) := rfl

theorem jsonEscapeChar_plain (x : Char) (hx : PlainC x) :
    jsonEscapeChar x = if x == bsc then [bsc, bsc] else [x] := by
  obtain ⟨h1, h2, h3⟩ := hx
  unfold jsonEscapeChar
  rw [if_neg (by simp [h3])]
  by_cases hb : (x == bsc) = true
  · rw [if_pos hb, if_pos hb]
  · rw [if_neg (by simp_all), if_neg (by simp; omega), if_neg (by simp; omega),
      if_neg (by simp; omega), if_neg (by simp; omega), if_neg (by simp; omega),
      if_neg (by omega), if_neg (by simp_all)]

theorem escJ_no_qc (s : String) (hs : ∀ c ∈ s.data, PlainC c) :
    ∀ c ∈ escJ s, (c == qc) = false := by
  intro c hc
  rcases List.mem_flatMap.mp hc with ⟨x, hx, hcx⟩
  rw [jsonEscapeChar_plain x (hs x hx)] at hcx
  split at hcx
  · rcases List.mem_cons.mp hcx with h | h
    · subst h; decide
    · rw [List.mem_singleton.mp h]; decide
  · rw [List.mem_singleton.mp hcx]
    have := (hs x hx).2.2
    simp [this]

/-- `"[^"]*"` consumes exactly one encoded string element. -/
theorem reM_qdq (a rest : List Char) (f : Nat)
    (ha : ∀ c ∈ a, (c == qc) = false)
    (hf : a.length + 3 ≤ f) :
    reM f qdq (qc :: (a ++ qc :: rest)) = [(rest, none)] := by
  have hqq : (qc == qc) = true := by decide
  have hnq : ∀ c ∈ a, ((fun x => !(x == qc)) c) = true := by
    intro c hc; simp [ha c hc]
  show reM f (RE.seq (RE.ch qc) (RE.seq (RE.star (.cls fun x => !(x == qc)))
    (RE.ch qc))) (qc :: (a ++ qc :: rest)) = [(rest, none)]
  rw [reM_seq _ _ _ _ (by omega)]
  rw [reM_ch_pos _ _ _ (by omega)]
  rw [flatMap_single]
  rw [reM_seq _ _ _ _ (by omega)]
  rw [reM_star_cls _ a (qc :: rest) (f - 1 - 1) hnq
    (by intro c h; cases h; decide) (by omega)]
  have hf2 : 1 ≤ f - 1 - 1 := by omega
  have hstep : (starClsRes a (qc :: rest)).flatMap
      (fun pa => (reM (f - 1 - 1) (RE.ch qc) pa.1).map
        fun pb => (pb.1, mergeCap pb.2 pa.2)) = [(rest, none)] := by
    clear hf
    induction a with
    | nil =>
      simp only [starClsRes, flatMap_single]
      rw [reM_ch_pos _ _ _ hf2]
      rfl
    | cons c a ih =>
      simp only [starClsRes, List.flatMap_append, flatMap_single]
      rw [ih (fun x hx => ha x (List.mem_cons_of_mem c hx))
        (fun x hx => by simp [ha x (List.mem_cons_of_mem c hx)])]
      rw [reM_ch_neg _ _ _ _ (ha c (List.mem_cons_self c a))]
      rfl
  rw [hstep]
  rfl

/-- `\s*` consumes nothing when the next character is not whitespace. -/
theorem reM_ws_nospace (b : List Char) (f : Nat)
    (hb : ∀ c, b.head? = some c → isJsSpace c = false) (hf : 1 ≤ f) :
    reM f wsStar b = [(b, none)] :=
  reM_star_cls isJsSpace [] b f (by intro c h; cases h) hb
    (by simp only [List.length_nil]; omega)

/-- The tail of a serialized list: `,"e2","e3",...` -/
def encTail (es : List String) : List Char := es.flatMap fun e => ',' :: jsonQuote e

theorem encTail_cons (e : String) (es : List String) :
    encTail (e :: es) = ',' :: (jsonQuote e ++ encTail es) := by
  simp [encTail]

/-- The group regex inside strategy 1: `,\s*"[^"]*"\s*`. -/
def strat1Grp : RE := RE.seq (RE.ch ',') (RE.seq wsStar (RE.seq qdq wsStar))

theorem strat1_eq : strat1 = RE.seq (RE.ch '[') (RE.seq wsStar (RE.seq qdq
    (RE.seq wsStar (RE.seq (RE.star strat1Grp) (RE.ch ']'))))) := rfl

theorem reM_strat1Grp (a rest : List Char) (f : Nat)
    (ha : ∀ c ∈ a, (c == qc) = false)
    (hrest : ∀ c, rest.head? = some c → isJsSpace c = false)
    (hf : a.length + 8 ≤ f) :
    reM f strat1Grp (',' :: (qc :: (a ++ qc :: rest))) = [(rest, none)] := by
  show reM f (RE.seq (RE.ch ',') (RE.seq wsStar (RE.seq qdq wsStar))) _ = _
  rw [reM_seq _ _ _ _ (by omega), reM_ch_pos _ _ _ (by omega), flatMap_single]
  rw [reM_seq _ _ _ _ (by omega)]
  rw [reM_ws_nospace _ _ (by intro c h; cases h; decide) (by omega)]
  rw [flatMap_single]
  rw [reM_seq _ _ _ _ (by omega)]
  rw [reM_qdq a rest _ ha (by omega)]
  rw [flatMap_single]
  rw [reM_ws_nospace rest _ hrest (by omega)]
  rfl

/-- Greedy-priority results of `(,\s*"[^"]*"\s*)*` on the encoded tail. -/
def starGrpRes : List String → MRes
  | [] => [([']'], none)]
  | e :: es => starGrpRes es ++ [(encTail (e :: es) ++ [']'], none)]

theorem encTail_len (e : String) (es : List String) :
    (encTail (e :: es)).length = (escJ e).length + (encTail es).length + 3 := by
  rw [encTail_cons, jsonQuote_eq]
  simp
  omega

theorem encTail_head_nospace (es : List String) :
    ∀ c, (encTail es ++ [']']).head? = some c → isJsSpace c = false := by
  cases es with
  | nil => intro c h; simp [encTail] at h; subst h; decide
  | cons x xs =>
    rw [encTail_cons]
    intro c h
    simp at h
    subst h
    decide

theorem reM_starGrp (es : List String) : ∀ (f : Nat),
    (∀ s ∈ es, ∀ c ∈ s.data, PlainC c) →
    (encTail es).length + 10 ≤ f →
    reM f (.star strat1Grp) (encTail es ++ [']']) = starGrpRes es := by
  induction es with
  | nil =>
    intro f _ hf
    show reM f (.star strat1Grp) [']'] = [([']'], none)]
    refine reM_star_body_nil _ _ _ ?_ (by omega)
    exact reM_seq_fail _ _ _ _ (reM_ch_neg _ _ _ _ (by decide))
  | cons e es ih =>
    intro f hplain hf
    have hlen := encTail_len e es
    have hdec : encTail (e :: es) ++ [']'] =
        ',' :: (qc :: (escJ e ++ qc :: (encTail es ++ [']']))) := by
      rw [encTail_cons, jsonQuote_eq]
      simp
    rw [hdec]
    obtain ⟨f', rfl⟩ : ∃ f', f = f' + 1 := ⟨f - 1, by omega⟩
    simp only [reM]
    rw [reM_strat1Grp (escJ e) (encTail es ++ [']']) f'
      (escJ_no_qc e (hplain e (List.mem_cons_self e es)))
      (encTail_head_nospace es) (by omega)]
    rw [filter_lt_keep _ _ (by simp; omega)]
    simp only [List.flatMap_cons, List.flatMap_nil, List.append_nil]
    rw [ih f' (fun s hs => hplain s (List.mem_cons_of_mem e hs)) (by omega)]
    rw [map_mergeCap_none]
    rw [show starGrpRes (e :: es) =
      starGrpRes es ++ [(encTail (e :: es) ++ [']'], none)] from rfl, hdec]

theorem starGrpRes_tail (es : List String) (f : Nat) (hf : 1 ≤ f) :
    (starGrpRes es).flatMap (fun pa => (reM f (RE.ch ']') pa.1).map
      fun pb => (pb.1, mergeCap pb.2 pa.2)) = [([], none)] := by
  induction es with
  | nil =>
    simp only [starGrpRes, flatMap_single]
    rw [reM_ch_pos _ _ _ hf]
    rfl
  | cons e es ih =>
    simp only [starGrpRes, List.flatMap_append, flatMap_single, ih]
    rw [show encTail (e :: es) ++ [']'] = ',' :: (jsonQuote e ++ encTail es ++ [']'])
      from by rw [encTail_cons]; simp]
    rw [reM_ch_neg _ _ _ _ (by decide)]
    rfl

/-- Strategy 1 consumes the entire serialization of a non-empty list of
quote-free plain strings, and in only one way. -/
theorem reM_strat1_full (e : String) (es : List String) (f : Nat)
    (hplain : ∀ s ∈ e :: es, ∀ c ∈ s.data, PlainC c)
    (hf : (escJ e).length + (encTail es).length + 16 ≤ f) :
    reM f strat1 ('[' :: (jsonQuote e ++ (encTail es ++ [']']))) = [([], none)] := by
  rw [strat1_eq]
  have hdec : jsonQuote e ++ (encTail es ++ [']']) =
      qc :: (escJ e ++ qc :: (encTail es ++ [']'])) := by
    rw [jsonQuote_eq]
    simp
  rw [reM_seq _ _ _ _ (by omega), reM_ch_pos _ _ _ (by omega), flatMap_single]
  rw [hdec]
  rw [reM_seq _ _ _ _ (by omega)]
  rw [reM_ws_nospace _ _ (by intro c h; cases h; decide) (by omega)]
  rw [flatMap_single]
  rw [reM_seq _ _ _ _ (by omega)]
  rw [reM_qdq (escJ e) _ _ (escJ_no_qc e (hplain e (List.mem_cons_self e es)))
    (by omega)]
  rw [flatMap_single]
  rw [reM_seq _ _ _ _ (by omega)]
  rw [reM_ws_nospace _ _ (encTail_head_nospace es) (by omega)]
  rw [flatMap_single]
  rw [reM_seq _ _ _ _ (by omega)]
  rw [reM_starGrp es _ (fun s hs => hplain s (List.mem_cons_of_mem e hs))
    (by omega)]
  rw [starGrpRes_tail es _ (by omega)]
  rfl

theorem inter_quote (e : String) (es : List String) :
    List.intercalate [','] ((e :: es).map jsonQuote) = jsonQuote e ++ encTail es := by
  induction es generalizing e with
  | nil => simp [List.intercalate, encTail]
  | cons e' es ih =>
    have h2 : List.intercalate [','] (jsonQuote e :: jsonQuote e' :: es.map jsonQuote) =
        jsonQuote e ++ [','] ++ List.intercalate [','] (jsonQuote e' :: es.map jsonQuote) := by
      simp [List.intercalate, List.intersperse_cons_cons]
    simp only [List.map_cons] at ih ⊢
    rw [h2, ih e', encTail_cons]
    simp

theorem stringify_decomp (e : String) (es : List String) :
    (jsonStringify (e :: es)).data = '[' :: (jsonQuote e ++ (encTail es ++ [']'])) := by
  show '[' :: List.intercalate [','] ((e :: es).map jsonQuote) ++ [']'] = _
  rw [inter_quote]
  simp

/-- Leftmost search on the serialized list finds the whole-string match at
position 0. -/
theorem searchL_strat1 (e : String) (es : List String)
    (hplain : ∀ s ∈ e :: es, ∀ c ∈ s.data, PlainC c) :
    searchL strat1 ('[' :: (jsonQuote e ++ (encTail es ++ [']']))) =
      some ([], '[' :: (jsonQuote e ++ (encTail es ++ [']'])), none, []) := by
  have hful : (escJ e).length + (encTail es).length + 16 ≤
      bigFuel ('[' :: (jsonQuote e ++ (encTail es ++ [']']))) := by
    simp [bigFuel, jsonQuote_eq]
    omega
  have hval := reM_strat1_full e es
    (bigFuel ('[' :: (jsonQuote e ++ (encTail es ++ [']'])))) hplain hful
  simp only [searchL, hval]
  simp

theorem matchAllL_strat1_nil (f : Nat) : matchAllL f strat1 [] = [] := by
  have h : reM (bigFuel ([] : List Char)) strat1 [] = [] := by
    rw [strat1_eq]
    exact reM_seq_fail _ _ _ _ (reM_ch_nil _ _)
  cases f with
  | zero => rfl
  | succ f =>
    simp only [matchAllL, searchL, h]
    rfl

theorem matchAllL_succ (f : Nat) (r : RE) (cs : List Char) :
    matchAllL (f + 1) r cs =
      match searchL r cs with
      | none => []
      | some (_, mat, cap, suf) =>
        if mat.isEmpty then
          match suf with
          | [] => [(mat, cap)]
          | _ :: suf' => (mat, cap) :: matchAllL f r suf'
        else (mat, cap) :: matchAllL f r suf := rfl

/-- `matchAll` of strategy 1 on the serialized list: exactly one match,
the whole string. -/
theorem matchAll_strat1 (e : String) (es : List String)
    (hplain : ∀ s ∈ e :: es, ∀ c ∈ s.data, PlainC c) :
    matchAll strat1 ('[' :: (jsonQuote e ++ (encTail es ++ [']']))) =
      [('[' :: (jsonQuote e ++ (encTail es ++ [']'])), none)] := by
  unfold matchAll
  rw [matchAllL_succ]
  rw [searchL_strat1 e es hplain]
  simp only [List.isEmpty_cons, Bool.false_eq_true, if_false]
  rw [matchAllL_strat1_nil]

theorem jpStr_run (l : List Char) (hs : ∀ c ∈ l, PlainC c) :
    ∀ (acc rest : List Char) (f : Nat), (l.flatMap jsonEscapeChar).length + 1 ≤ f →
      jpStr f acc (l.flatMap jsonEscapeChar ++ qc :: rest) =
        some (acc.reverse ++ l, rest) := by
  induction l with
  | nil =>
    intro acc rest f hf
    obtain ⟨f', rfl⟩ : ∃ f', f = f' + 1 := ⟨f - 1, by omega⟩
    show jpStr (f' + 1) acc (qc :: rest) = some (acc.reverse ++ [], rest)
    simp [jpStr]
  | cons c l ih =>
    intro acc rest f hf
    have pc := hs c (List.mem_cons_self c l)
    have hstep := jsonEscapeChar_plain c pc
    obtain ⟨p1, p2, p3⟩ := pc
    have h1 : (c == qc) = false := by simp [p3]
    have hlt : ¬ c.toNat < 32 := by omega
    simp only [List.flatMap_cons] at hf ⊢
    rw [hstep] at hf ⊢
    by_cases hbsc : (c == bsc) = true
    · rw [if_pos hbsc] at hf ⊢
      have hc : c = bsc := by simpa using hbsc
      obtain ⟨f', rfl⟩ : ∃ f', f = f' + 1 := ⟨f - 1, by omega⟩
      show jpStr (f' + 1) acc
        (bsc :: bsc :: (l.flatMap jsonEscapeChar ++ qc :: rest)) = _
      simp only [jpStr]
      rw [if_neg (by decide), if_pos (by decide), if_neg (by decide),
        if_pos (by decide)]
      rw [ih (fun x hx => hs x (List.mem_cons_of_mem c hx)) (bsc :: acc) rest f'
        (by simp at hf ⊢; omega)]
      rw [hc]
      simp
    · rw [if_neg hbsc] at hf ⊢
      obtain ⟨f', rfl⟩ : ∃ f', f = f' + 1 := ⟨f - 1, by omega⟩
      show jpStr (f' + 1) acc
        (c :: (l.flatMap jsonEscapeChar ++ qc :: rest)) = _
      simp only [jpStr]
      rw [if_neg (by simp [h1]), if_neg (by simp [hbsc]), if_neg hlt]
      rw [ih (fun x hx => hs x (List.mem_cons_of_mem c hx)) (c :: acc) rest f'
        (by simp at hf ⊢; omega)]
      simp

theorem encTail_ge (es : List String) : es.length ≤ (encTail es).length := by
  induction es with
  | nil => simp [encTail]
  | cons e es ih =>
    rw [encTail_len]
    simp
    omega

theorem jpElems_run (es : List String) : ∀ (e : String) (acc : List String) (f : Nat),
    (∀ s ∈ e :: es, ∀ c ∈ s.data, PlainC c) →
    es.length + 1 ≤ f →
    jpElems f acc (jsonQuote e ++ (encTail es ++ [']'])) =
      some (acc.reverse ++ e :: es, []) := by
  induction es with
  | nil =>
    intro e acc f hp hf
    have hdec : jsonQuote e ++ (encTail [] ++ [']']) =
        qc :: ((e.data.flatMap jsonEscapeChar) ++ qc :: [']']) := by
      rw [jsonQuote_eq]
      simp [encTail, escJ]
    rw [hdec]
    obtain ⟨f', rfl⟩ : ∃ f', f = f' + 1 := ⟨f - 1, by omega⟩
    simp only [jpElems]
    rw [List.dropWhile_cons]
    rw [if_neg (by decide)]
    simp only [beq_self_eq_true, if_true]
    rw [jpStr_run e.data (hp e (List.mem_cons_self e [])) [] [']'] _
      (by simp)]
    simp only [List.reverse_nil, List.nil_append]
    rw [List.dropWhile_cons]
    rw [if_neg (by decide)]
    simp
  | cons e' es ih =>
    intro e acc f hp hf
    have hdec : jsonQuote e ++ (encTail (e' :: es) ++ [']']) =
        qc :: ((e.data.flatMap jsonEscapeChar) ++ qc ::
          (',' :: (jsonQuote e' ++ (encTail es ++ [']'])))) := by
      rw [jsonQuote_eq, encTail_cons]
      simp [escJ]
    rw [hdec]
    obtain ⟨f', rfl⟩ : ∃ f', f = f' + 1 := ⟨f - 1, by omega⟩
    simp only [jpElems]
    rw [List.dropWhile_cons]
    rw [if_neg (by decide)]
    simp only [beq_self_eq_true, if_true]
    rw [jpStr_run e.data (hp e (List.mem_cons_self e _)) [] _ _ (by simp)]
    simp only [List.reverse_nil, List.nil_append]
    rw [List.dropWhile_cons]
    rw [if_neg (by decide)]
    split
    · next heq => exact absurd (List.head_eq_of_cons_eq heq) (by decide)
    · next tail heq =>
      obtain rfl : tail = jsonQuote e' ++ (encTail es ++ [']']) :=
        (List.tail_eq_of_cons_eq heq).symm
      rw [ih e' (⟨e.data⟩ :: acc) f'
        (fun s hs => hp s (List.mem_cons_of_mem e hs))
        (by simp only [List.length_cons] at hf; omega)]
      simp
    · next h1 h2 => exact absurd rfl (h2 _)

/-- `JSON.parse ∘ JSON.stringify` is the identity on non-empty lists of
plain quote-free strings. -/
theorem jsonParse_stringify (e : String) (es : List String)
    (hplain : ∀ s ∈ e :: es, ∀ c ∈ s.data, PlainC c) :
    jsonParse (jsonStringify (e :: es)).data = some (e :: es) := by
  rw [stringify_decomp]
  unfold jsonParse
  rw [List.dropWhile_cons]
  rw [if_neg (by decide)]
  simp only []
  have hdec : jsonQuote e ++ (encTail es ++ [']']) =
      qc :: ((escJ e ++ [qc]) ++ (encTail es ++ [']'])) := by
    rw [jsonQuote_eq]
    simp
  rw [hdec]
  rw [List.dropWhile_cons]
  rw [if_neg (by decide)]
  split
  · next heq => exact absurd (List.head_eq_of_cons_eq heq) (by decide)
  · rw [← hdec]
    rw [jpElems_run es e [] _ hplain ?hfuel]
    · simp
    case hfuel =>
      have h1 := encTail_ge es
      simp [jsonQuote_eq]
      omega

/-- Trimming is the identity on a bracketed serialization: `'['` and `']'`
are not JS whitespace. -/
theorem trimL_brk (xs : List Char) :
    trimL ('[' :: (xs ++ [']'])) = '[' :: (xs ++ [']']) := by
  unfold trimL
  rw [List.dropWhile_cons, if_neg (by decide)]
  have h : ('[' :: (xs ++ [']'])).reverse = ']' :: (xs.reverse ++ ['[']) := by
    simp
  rw [h, List.dropWhile_cons, if_neg (by decide), ← h, List.reverse_reverse]

theorem trimL_stringify (e : String) (es : List String) :
    trimL ('[' :: (jsonQuote e ++ (encTail es ++ [']']))) =
      '[' :: (jsonQuote e ++ (encTail es ++ [']'])) := by
  have h : '[' :: (jsonQuote e ++ (encTail es ++ [']'])) =
      '[' :: ((jsonQuote e ++ encTail es) ++ [']']) := by
    simp
  rw [h, trimL_brk]

/-- The serialization of a non-empty list is never the literal `[]` (its
length is at least 4). -/
theorem stringify_ne_emptyArr (e : String) (es : List String) :
    (('[' :: (jsonQuote e ++ (encTail es ++ [']']))) == "[]".data) = false := by
  rw [beq_eq_false_iff_ne]
  intro h
  have hl := congrArg List.length h
  rw [jsonQuote_eq] at hl
  rw [show ("[]".data).length = 2 from rfl] at hl
  simp only [List.length_cons, List.length_append, List.length_singleton] at hl
  omega

theorem tryStrategies_cons (s : RE) (ss : List RE) (cs : List Char) :
    tryStrategies (s :: ss) cs =
      match tryMatches (matchAll s cs) with
      | some v => some v
      | none => tryStrategies ss cs := rfl

/-- On the serialization of a plain-string list with a non-blank element,
strategy 1 already succeeds, returning the valid (non-blank) elements. -/
theorem tryStrategies_stringify (e : String) (es : List String)
    (hplain : ∀ s ∈ e :: es, ∀ c ∈ s.data, PlainC c)
    (hval : (validFilter (e :: es)).isEmpty = false) :
    tryStrategies strategies ('[' :: (jsonQuote e ++ (encTail es ++ [']']))) =
      some (validFilter (e :: es)) := by
  have hp : jsonParse ('[' :: (jsonQuote e ++ (encTail es ++ [']']))) =
      some (e :: es) := by
    rw [← stringify_decomp]
    exact jsonParse_stringify e es hplain
  have htm : tryMatches [('[' :: (jsonQuote e ++ (encTail es ++ [']'])), none)] =
      some (validFilter (e :: es)) := by
    simp only [tryMatches]
    rw [hp]
    show (if !(validFilter (e :: es)).isEmpty then some (validFilter (e :: es))
      else tryMatches []) = some (validFilter (e :: es))
    rw [hval]
    rfl
  rw [show strategies = strat1 :: [strat2, strat3, strat4] from rfl]
  rw [tryStrategies_cons, matchAll_strat1 e es hplain, htm]

/-- `extractArray` on the serialization of a plain-string list with a
non-blank element returns the non-blank elements, in order. -/
theorem extractArray_stringify (e : String) (es : List String)
    (hplain : ∀ s ∈ e :: es, ∀ c ∈ s.data, PlainC c)
    (hval : (validFilter (e :: es)).isEmpty = false) :
    extractArray (jsonStringify (e :: es)) = validFilter (e :: es) := by
  unfold extractArray
  rw [stringify_decomp]
  rw [if_neg (by simp)]
  simp only []
  rw [trimL_stringify]
  rw [if_neg (by rw [stringify_ne_emptyArr]; decide)]
  rw [tryStrategies_stringify e es hplain hval]

/-- An empty exclusion list excludes nothing. -/
theorem filter_keep_all (l : List String) :
    (l.filter fun task => !List.contains [] task) = l := by
  induction l with
  | nil => rfl
  | cons a l ih =>
    show a :: (l.filter fun task => !List.contains [] task) = a :: l
    rw [ih]

/-- C2 (counterexample): the round-trip fails because `extractTasks` pipes
the decoded array through `realTasksFilter`, which drops any string without
an action word or task-indicator substring.  `["hello world"]` serializes
to `["hello world"]`, decodes back to itself, and is then filtered to
nothing. -/
theorem c2_counterexample :
    extractTasks (jsonStringify ["hello world"]) [] ≠ ["hello world"] := by
  decide

/-! ## Claim C9: shape of extractor output -/

/-- What passing `realTasksFilter` tells us about a string: its trimmed
form has length between 5 and 300 and (lowercased) contains an action word
or one of the indicator substrings. -/
theorem realTasksFilter_spec (s : String) (h : realTasksFilter s = true) :
    5 ≤ (trimL s.data).length ∧ (trimL s.data).length ≤ 300 ∧
      ((actionWords.any fun w => containsSub w.data (lowerL (trimL s.data))) = true ∨
       (taskIndicatorSubs.any fun w => containsSub w.data (lowerL (trimL s.data))) = true) := by
  unfold realTasksFilter at h
  by_cases h0 : s.data.isEmpty = true
  · rw [if_pos h0] at h; exact absurd h (by simp)
  · rw [if_neg h0] at h
    simp only [] at h
    by_cases h1 : (lowerL (trimL s.data)).length < 5
    · rw [if_pos h1] at h; exact absurd h (by simp)
    · rw [if_neg h1] at h
      by_cases h2 : 300 < (lowerL (trimL s.data)).length
      · rw [if_pos h2] at h; exact absurd h (by simp)
      · rw [if_neg h2] at h
        have hlen : (lowerL (trimL s.data)).length = (trimL s.data).length := by
          simp [lowerL]
        rw [hlen] at h1 h2
        refine ⟨by omega, by omega, ?_⟩
        by_cases h3 : (noTaskPats.any fun p => testAnchored p (lowerL (trimL s.data))) = true
        · rw [if_pos h3] at h; exact absurd h (by simp)
        · rw [if_neg h3] at h
          exact Bool.or_eq_true_iff.mp h

/-- C2 (amended): for a list of 1–5 plain printable-ASCII strings with no
embedded double quote, at least one of which is not whitespace-only,
`extractTasks` applied to the JSON serialization of the list with an empty
exclusion list returns the sublist of elements that pass
`realTasksFilter`, in order, each with one task-number prefix layer
stripped — not the full original list. -/
theorem c2_amended (e : String) (es : List String) (_hlen : es.length ≤ 4)
    (hplain : ∀ s ∈ e :: es, ∀ c ∈ s.data, PlainC c)
    (hval : (validFilter (e :: es)).isEmpty = false) :
    extractTasks (jsonStringify (e :: es)) [] =
      ((e :: es).filter realTasksFilter).map removeTaskPrefixFn := by
  unfold extractTasks
  rw [stringify_decomp]
  rw [if_neg (by simp)]
  simp only []
  rw [trimL_stringify]
  rw [if_neg (by simp)]
  rw [if_neg (by rw [stringify_ne_emptyArr]; decide)]
  have harr : (⟨'[' :: (jsonQuote e ++ (encTail es ++ [']']))⟩ : String) =
      jsonStringify (e :: es) := by
    rw [← stringify_decomp]
  rw [harr, extractArray_stringify e es hplain hval]
  rw [filter_keep_all]
  unfold validFilter
  rw [List.filter_filter]
  have hff : ((e :: es).filter fun a =>
      realTasksFilter a && !(trimL a.data).isEmpty) =
      (e :: es).filter realTasksFilter := by
    apply List.filter_congr
    intro a ha
    by_cases h : realTasksFilter a = true
    · have h5 := (realTasksFilter_spec a h).1
      have hne : (trimL a.data).isEmpty = false := by
        rcases htr : trimL a.data with _ | ⟨x, xs⟩
        · rw [htr] at h5
          simp at h5
        · rfl
      simp [h, hne]
    · rw [Bool.not_eq_true] at h
      simp [h]
  rw [hff]

/-- C2 (witness): the amended statement at the singleton list
`["Write a report"]`, which survives the filter unchanged and carries no
numeric prefix to strip. -/
theorem c2_witness :
    ([] : List String).length ≤ 4 ∧
      extractTasks (jsonStringify ["Write a report"]) [] =
        (["Write a report"].filter realTasksFilter).map removeTaskPrefixFn :=
  ⟨by decide, c2_amended "Write a report" [] (by decide)
    (by simp only [PlainC]; decide) (by decide)⟩

/-- C9 (amended): every string `extractTasks` returns is the
prefix-stripped form of a candidate that passed `realTasksFilter` (trimmed
length in `[5, 300]` and an action word or indicator substring present) and
was not excluded; the claim as stated is wrong only in asserting the
constraints of the *candidate* for the *returned* string, which has already
been prefix-stripped. -/
theorem c9_amended (text : String) (excl : List String) (t : String)
    (ht : t ∈ extractTasks text excl) :
    ∃ c : String, realTasksFilter c = true ∧ excl.contains c = false ∧
      t = removeTaskPrefixFn c ∧
      5 ≤ (trimL c.data).length ∧ (trimL c.data).length ≤ 300 ∧
      ((actionWords.any fun w => containsSub w.data (lowerL (trimL c.data))) = true ∨
       (taskIndicatorSubs.any fun w => containsSub w.data (lowerL (trimL c.data))) = true) := by
  unfold extractTasks at ht
  by_cases hA : text.data.isEmpty = true
  · simp [hA] at ht
  rw [if_neg hA] at ht
  simp only [] at ht
  by_cases hB : (trimL text.data).isEmpty = true
  · simp [hB] at ht
  rw [if_neg hB] at ht
  by_cases hC : (trimL text.data == "[]".data) = true
  · simp [hC] at ht
  rw [if_neg hC] at ht
  rcases List.mem_map.mp ht with ⟨c, hc, hmap⟩
  rcases List.mem_filter.mp hc with ⟨hc2, hex⟩
  rcases List.mem_filter.mp hc2 with ⟨_, hreal⟩
  rcases realTasksFilter_spec c hreal with ⟨hl, hr, hw⟩
  refine ⟨c, hreal, ?_, hmap.symm, hl, hr, hw⟩
  simpa using hex

/-- C9 (witness): the amended statement applied to the concrete run
`extractTasks "[\"1: to x\"]" [] = ["to x"]`. -/
theorem c9_witness :
    ∃ c : String, realTasksFilter c = true ∧ ([] : List String).contains c = false ∧
      "to x" = removeTaskPrefixFn c ∧
      5 ≤ (trimL c.data).length ∧ (trimL c.data).length ≤ 300 ∧
      ((actionWords.any fun w => containsSub w.data (lowerL (trimL c.data))) = true ∨
       (taskIndicatorSubs.any fun w => containsSub w.data (lowerL (trimL c.data))) = true) :=
  c9_amended "[\"1: to x\"]" [] "to x" (by decide)

/-- C9 (counterexample): an output of `extractTasks` whose trimmed length
is below 5, contradicting the claim that every *returned* string has
trimmed length at least 5.  The candidate `"1: to x"` passes the filters
(it contains the indicator `"to "`), and only then is its `"1: "` prefix
stripped, leaving the 4-character `"to x"`. -/
theorem c9_counterexample :
    extractTasks "[\"1: to x\"]" [] = ["to x"] ∧ (trimL "to x".data).length < 5 := by
  decide

/-! ## Claim C6: order of prefix stripping and filtering -/

/-- C6 (counterexample): the claim says an item matching the exclusion
list only after prefix removal is still filtered out.  In the code the
exclusion filter runs before stripping, so `"Task 1. Write a report"`
survives the exclusion list `["Write a report"]` and is returned as
`"Write a report"` — the very string the caller excluded. -/
theorem c6_counterexample :
    extractTasks "[\"Task 1. Write a report\"]" ["Write a report"] =
      ["Write a report"] := by decide

/-- C6 (amended): prefix stripping happens after (not before) the
deny-list and exclusion filters: every candidate that survives
`realTasksFilter` and the exclusion check contributes its prefix-stripped
form to the output, even when that stripped form matches a deny phrase or
an excluded string. -/
theorem c6_amended (text : String) (excl : List String) (c : String)
    (h1 : c ∈ extractArray ⟨trimL text.data⟩)
    (h2 : realTasksFilter c = true)
    (h3 : excl.contains c = false)
    (h4 : text.data.isEmpty = false)
    (h5 : (trimL text.data).isEmpty = false)
    (h6 : (trimL text.data == "[]".data) = false) :
    removeTaskPrefixFn c ∈ extractTasks text excl := by
  unfold extractTasks
  rw [if_neg (by simp [h4]), if_neg (by simp [h5]), if_neg (by simp_all)]
  exact List.mem_map_of_mem _
    (List.mem_filter.mpr ⟨List.mem_filter.mpr ⟨h1, h2⟩,
      by simp only [h3, Bool.not_false]⟩)

/-- C6 (witness): the amended statement applied at the concrete inputs of
the counterexample. -/
theorem c6_witness :
    removeTaskPrefixFn "Task 1. Write a report" ∈
      extractTasks "[\"Task 1. Write a report\"]" ["Write a report"] :=
  c6_amended "[\"Task 1. Write a report\"]" ["Write a report"]
    "Task 1. Write a report" (by decide) (by decide) (by decide) (by decide)
    (by decide) (by decide)

/-! ## Claim C5: the intelligent task filter -/

/-- C5: with the progress ratio the caller computes
(`completed/(completed+remaining+1)`), the filter returns nothing when the
ratio exceeds 0.7 and at most 2 tasks remain; returns nothing when more
than 4 tasks remain; removes every candidate whose `>`3-letter word list
overlaps some existing (completed or remaining) task's word list in more
than 60% of the smaller list; and never returns more than 2 tasks. -/
theorem c5_filter (newTasks : List String) (ctx : TaskFilterCtx)
    (hr : ctx.progressRat =
      createTasksRat ctx.completedTasks.length ctx.remainingTasks.length) :
    ((7 : ℚ) / 10 < createTasksRat ctx.completedTasks.length ctx.remainingTasks.length →
      ctx.remainingTasks.length ≤ 2 → intelligentTaskFilter newTasks ctx = []) ∧
    (4 < ctx.remainingTasks.length → intelligentTaskFilter newTasks ctx = []) ∧
    (∀ t ∈ newTasks,
      ((ctx.completedTasks ++ ctx.remainingTasks).any fun ex => overlapReject t ex) = true →
      t ∉ intelligentTaskFilter newTasks ctx) ∧
    (intelligentTaskFilter newTasks ctx).length ≤ 2 := by
  refine ⟨?_, ?_, ?_, ?_⟩
  · intro h7 hle
    unfold intelligentTaskFilter
    simp only []
    split_ifs with hA hB <;>
      first
        | rfl
        | exact absurd (by rw [hr]; simp [h7, hle]) hB
  · intro h4
    unfold intelligentTaskFilter
    simp only []
    split_ifs <;> rfl
  · intro t hmem hov hin
    unfold intelligentTaskFilter at hin
    simp only [] at hin
    split_ifs at hin <;> try exact absurd hin (List.not_mem_nil t)
    have hin' := List.take_subset 2 _ hin
    have hp := (List.mem_filter.mp hin').2
    simp only [hov, Bool.not_true] at hp
    exact absurd hp (by simp)
  · unfold intelligentTaskFilter
    simp only []
    split_ifs <;> simp

/-- C5 (witness): the filter applied at concrete inputs exercising the
remaining-tasks ceiling, through the theorem. -/
theorem c5_witness :
    intelligentTaskFilter ["Research more details about the topic"]
      { goal := "g", completedTasks := [], remainingTasks := ["a", "b", "c", "d", "e"],
        lastTask := "t", result := "r", progressRat := createTasksRat 0 5 } = [] :=
  (c5_filter _ _ rfl).2.1 (by decide)

/-! ## Claim C3: consume on an unexpired record -/

/-- C3 (counterexample): the claim quantifies over every `consume` amount;
for amount 0 (which does not exceed `tokensRemaining`) it requires a
successful no-op decrement, but the handler's `!tokensToConsume`
truthiness validation rejects the request with a 400 before touching the
record. -/
theorem c3_counterexample :
    handleConsumeTokens 500 "s" 0
      [{ id := 1, sessionToken := "s", cookieId := none, tokensUsed := 0,
         tokensRemaining := 10000, resetAt := 1000 }] =
    (ConsumeResp.badRequest,
      [{ id := 1, sessionToken := "s", cookieId := none, tokensUsed := 0,
         tokensRemaining := 10000, resetAt := 1000 }]) := by decide

/-- C3 (amended): for every consume with a truthy (non-zero) amount on an
unexpired record: if the amount exceeds `tokensRemaining` the call fails
with InsufficientTokens and the store is unchanged; otherwise it
decrements `tokensRemaining` and increments `tokensUsed` by exactly the
amount, preserving their sum, and the new remaining balance is
non-negative. -/
theorem c3_amended (now : Int) (st : String) (amount : Int) (store : TokenStore)
    (user : TokenRec)
    (hst : st.isEmpty = false)
    (hamt : (amount == 0) = false)
    (hfind : (store.find? fun r => r.sessionToken == st) = some user)
    (hunexp : now ≤ user.resetAt) :
    (user.tokensRemaining < amount →
      handleConsumeTokens now st amount store =
        (.insufficient user.tokensRemaining amount, store)) ∧
    (amount ≤ user.tokensRemaining →
      handleConsumeTokens now st amount store =
        (.success (user.tokensUsed + amount) (user.tokensRemaining - amount)
            amount (now + resetWindowMs),
          updateRec store user.id fun r =>
            { r with tokensUsed := user.tokensUsed + amount,
                     tokensRemaining := user.tokensRemaining - amount,
                     resetAt := now + resetWindowMs }) ∧
      (user.tokensUsed + amount) + (user.tokensRemaining - amount) =
        user.tokensUsed + user.tokensRemaining ∧
      0 ≤ user.tokensRemaining - amount) := by
  have hexp : decide (user.resetAt < now) = false := by
    simp only [decide_eq_false_iff_not, not_lt]; exact hunexp
  unfold handleConsumeTokens
  rw [if_neg (by simp [hst, hamt]), hfind]
  simp only [hexp, Bool.false_eq_true, if_false]
  constructor
  · intro hlt
    rw [if_pos hlt]
  · intro hge
    rw [if_neg (by omega)]
    exact ⟨rfl, by ring, by omega⟩

/-- C3 (witness): the amended statement at a concrete store, with both the
successful-decrement conclusion and the non-negativity. -/
theorem c3_witness :
    handleConsumeTokens 500 "s" 100
      [{ id := 1, sessionToken := "s", cookieId := none, tokensUsed := 0,
         tokensRemaining := 10000, resetAt := 1000 }] =
      (.success (0 + 100) (10000 - 100) 100 (500 + resetWindowMs),
        updateRec
          [{ id := 1, sessionToken := "s", cookieId := none, tokensUsed := 0,
             tokensRemaining := 10000, resetAt := 1000 }] 1 fun r =>
          { r with tokensUsed := 0 + 100, tokensRemaining := 10000 - 100,
                   resetAt := 500 + resetWindowMs }) :=
  ((c3_amended 500 "s" 100
      [{ id := 1, sessionToken := "s", cookieId := none, tokensUsed := 0,
         tokensRemaining := 10000, resetAt := 1000 }]
      { id := 1, sessionToken := "s", cookieId := none, tokensUsed := 0,
        tokensRemaining := 10000, resetAt := 1000 }
      (by decide) (by decide) (by decide) (by decide)).2 (by decide)).1

/-! ## Claim C4: expiry reset on getStatus / initialize -/

/-- C4: when `resetAt` is in the past, the next `getStatus` (keyed by the
record's session token) and the next `initialize` both answer with
`tokensUsed = 0`, `tokensRemaining = DEMO_TOKEN_LIMIT` and a `resetAt`
strictly in the future, and persist exactly that reset state. -/
theorem c4_reset (now : Int) (st : String) (store : TokenStore) (user : TokenRec)
    (hst : st.isEmpty = false)
    (hfind : (store.find? fun r => r.sessionToken == st) = some user)
    (hexp : user.resetAt < now) :
    handleGetTokenStatus now st "" store =
      (.ok 0 DEMO_TOKEN_LIMIT (now + resetWindowMs) true,
        updateRec store user.id fun r =>
          { r with tokensUsed := 0, tokensRemaining := DEMO_TOKEN_LIMIT,
                   resetAt := now + resetWindowMs }) ∧
    now < now + resetWindowMs ∧
    (∀ (cookieId : Option String) (newId : Nat),
      (store.find? (initLookup st cookieId)) = some user →
      handleInitializeTokens now st cookieId newId store =
        (.okReset 0 DEMO_TOKEN_LIMIT (now + resetWindowMs),
          updateRec store user.id fun r =>
            { r with tokensUsed := 0, tokensRemaining := DEMO_TOKEN_LIMIT,
                     resetAt := now + resetWindowMs, sessionToken := st,
                     cookieId := cookieId })) := by
  have hd : decide (user.resetAt < now) = true := by
    simpa using hexp
  refine ⟨?_, ?_, ?_⟩
  · unfold handleGetTokenStatus
    rw [if_neg (by simp [hst])]
    simp only [hst, Bool.not_false, if_true, hfind, hd, if_pos]
  · have : (0 : Int) < resetWindowMs := by decide
    omega
  · intro cookieId newId hfind2
    unfold handleInitializeTokens
    rw [if_neg (by simp [hst]), hfind2]
    simp only [hd, if_pos]

/-- C4 (witness): the reset behaviour at a concrete expired record. -/
theorem c4_witness :
    handleGetTokenStatus 5000 "s" ""
      [{ id := 1, sessionToken := "s", cookieId := none, tokensUsed := 700,
         tokensRemaining := 9300, resetAt := 1000 }] =
      (.ok 0 DEMO_TOKEN_LIMIT (5000 + resetWindowMs) true,
        updateRec
          [{ id := 1, sessionToken := "s", cookieId := none, tokensUsed := 700,
             tokensRemaining := 9300, resetAt := 1000 }] 1 fun r =>
          { r with tokensUsed := 0, tokensRemaining := DEMO_TOKEN_LIMIT,
                   resetAt := 5000 + resetWindowMs }) :=
  (c4_reset 5000 "s"
    [{ id := 1, sessionToken := "s", cookieId := none, tokensUsed := 700,
       tokensRemaining := 9300, resetAt := 1000 }]
    { id := 1, sessionToken := "s", cookieId := none, tokensUsed := 700,
      tokensRemaining := 9300, resetAt := 1000 }
    (by decide) (by decide) (by decide)).1

/-! ## Claim C10: consume applies the expiry reset before the check -/

/-- C10 (counterexample): the claim says a consume on an expired record
succeeds for any amount up to the full allowance; amount 0 is within the
allowance yet the request is rejected by the truthiness validation. -/
theorem c10_counterexample :
    (handleConsumeTokens 5000 "s" 0
      [{ id := 1, sessionToken := "s", cookieId := none, tokensUsed := 9990,
         tokensRemaining := 10, resetAt := 1000 }]).1 = ConsumeResp.badRequest := by
  decide

/-- C10 (amended): for every truthy (non-zero) amount, a consume on an
expired record evaluates the sufficiency check and the decrement against
the freshly reset full allowance: it succeeds whenever the amount is at
most `DEMO_TOKEN_LIMIT` (regardless of the stored pre-reset balance), and
fails with InsufficientTokens exactly when the amount exceeds the
post-reset remaining balance. -/
theorem c10_amended (now : Int) (st : String) (amount : Int) (store : TokenStore)
    (user : TokenRec)
    (hst : st.isEmpty = false)
    (hamt : (amount == 0) = false)
    (hfind : (store.find? fun r => r.sessionToken == st) = some user)
    (hexp : user.resetAt < now) :
    ((handleConsumeTokens now st amount store).1 =
        .insufficient DEMO_TOKEN_LIMIT amount ↔ DEMO_TOKEN_LIMIT < amount) ∧
    (amount ≤ DEMO_TOKEN_LIMIT →
      (handleConsumeTokens now st amount store).1 =
        .success amount (DEMO_TOKEN_LIMIT - amount) amount (now + resetWindowMs)) := by
  have hd : decide (user.resetAt < now) = true := by simpa using hexp
  unfold handleConsumeTokens
  rw [if_neg (by simp [hst, hamt]), hfind]
  simp only [hd, if_true]
  constructor
  · constructor
    · intro h
      by_contra hle
      rw [if_neg (by omega)] at h
      exact absurd h (by simp)
    · intro h
      rw [if_pos h]
  · intro hle
    rw [if_neg (by omega)]
    simp [Int.zero_add]

/-- C10 (witness): a concrete expired record whose stored balance (10) is
smaller than the requested amount (500); the consume succeeds against the
reset allowance. -/
theorem c10_witness :
    (handleConsumeTokens 5000 "s" 500
      [{ id := 1, sessionToken := "s", cookieId := none, tokensUsed := 9990,
         tokensRemaining := 10, resetAt := 1000 }]).1 =
      .success 500 (DEMO_TOKEN_LIMIT - 500) 500 (5000 + resetWindowMs) :=
  (c10_amended 5000 "s" 500
    [{ id := 1, sessionToken := "s", cookieId := none, tokensUsed := 9990,
       tokensRemaining := 10, resetAt := 1000 }]
    { id := 1, sessionToken := "s", cookieId := none, tokensUsed := 9990,
      tokensRemaining := 10, resetAt := 1000 }
    (by decide) (by decide) (by decide) (by decide)).2 (by decide)

/-! ## Claim C8: missing API key and the order of network calls -/

/-- C8 (counterexample): the claim says a call with a missing key fails
before *any* network request.  With a session token present and a healthy
token backend, `callStreaming` issues the token-status GET first and only
then throws the configuration error. -/
theorem c8_counterexample :
    callStreaming
      { llmProvider := "groq", groqApiKey := "", openrouterApiKey := "",
        cohereApiKey := "", customApiKey := "", envGroqKey := "",
        envOpenrouterKey := "", envCohereKey := "", sessionToken := "sess",
        timeContext := "T", tokenFetch := .ok true 1000000,
        providerOk := true, providerText := "r", consumeOk := true } "p" [] =
    ([NetEv.tokenCheckGet], .error (.noApiKey "groq")) := by rfl

/-- C8 (amended): when the resolved API key is missing or empty the call
always fails before any *provider* request is issued (no `providerPost`
ever appears in the trace), and whenever the token pre-check itself does
not raise, the failure is the configuration error; a token-status request
may be issued before the failure. -/
theorem c8_amended (e : LLMEnv) (prompt : String) (vars : List (String × String))
    (hkey : (trimS (getApiKey e)).data.isEmpty = true) :
    (∀ p, NetEv.providerPost p ∉ (callStreaming e prompt vars).1) ∧
    (∃ err, (callStreaming e prompt vars).2 = .error err) ∧
    ((checkTokensBeforeRequest e (processedPrompt e prompt vars)).2 = none →
      (callStreaming e prompt vars).2 = .error (.noApiKey (resolvedProvider e))) := by
  have hevs : ∀ p, NetEv.providerPost p ∉
      (checkTokensBeforeRequest e (processedPrompt e prompt vars)).1 := by
    intro p
    unfold checkTokensBeforeRequest
    split_ifs with h
    · simp
    · match e.tokenFetch with
      | .netFail => simp
      | .ok c r => simp
  unfold callStreaming
  simp only []
  rcases hck : checkTokensBeforeRequest e (processedPrompt e prompt vars) with ⟨evs, errOpt⟩
  have hevs' : ∀ p, NetEv.providerPost p ∉ evs := by
    intro p; have h := hevs p; rw [hck] at h; exact h
  cases errOpt with
  | some err =>
    refine ⟨hevs', ⟨err, rfl⟩, ?_⟩
    intro h
    simp at h
  | none =>
    rw [if_pos hkey]
    exact ⟨hevs', ⟨.noApiKey (resolvedProvider e), rfl⟩, fun _ => rfl⟩

/-- C8 (witness): the amended statement at a concrete environment without
a session token: the call fails with the configuration error and issues no
provider request. -/
theorem c8_witness :
    (∀ p, NetEv.providerPost p ∉
      (callStreaming
        { llmProvider := "", groqApiKey := "", openrouterApiKey := "",
          cohereApiKey := "", customApiKey := "", envGroqKey := "",
          envOpenrouterKey := "", envCohereKey := "", sessionToken := "",
          timeContext := "T", tokenFetch := .netFail, providerOk := true,
          providerText := "r", consumeOk := true } "p" []).1) ∧
    (∃ err, (callStreaming
        { llmProvider := "", groqApiKey := "", openrouterApiKey := "",
          cohereApiKey := "", customApiKey := "", envGroqKey := "",
          envOpenrouterKey := "", envCohereKey := "", sessionToken := "",
          timeContext := "T", tokenFetch := .netFail, providerOk := true,
          providerText := "r", consumeOk := true } "p" []).2 = .error err) ∧
    ((checkTokensBeforeRequest
        { llmProvider := "", groqApiKey := "", openrouterApiKey := "",
          cohereApiKey := "", customApiKey := "", envGroqKey := "",
          envOpenrouterKey := "", envCohereKey := "", sessionToken := "",
          timeContext := "T", tokenFetch := .netFail, providerOk := true,
          providerText := "r", consumeOk := true }
        (processedPrompt
          { llmProvider := "", groqApiKey := "", openrouterApiKey := "",
            cohereApiKey := "", customApiKey := "", envGroqKey := "",
            envOpenrouterKey := "", envCohereKey := "", sessionToken := "",
            timeContext := "T", tokenFetch := .netFail, providerOk := true,
            providerText := "r", consumeOk := true } "p" [])).2 = none →
      (callStreaming
        { llmProvider := "", groqApiKey := "", openrouterApiKey := "",
          cohereApiKey := "", customApiKey := "", envGroqKey := "",
          envOpenrouterKey := "", envCohereKey := "", sessionToken := "",
          timeContext := "T", tokenFetch := .netFail, providerOk := true,
          providerText := "r", consumeOk := true } "p" []).2 =
        .error (.noApiKey (resolvedProvider
          { llmProvider := "", groqApiKey := "", openrouterApiKey := "",
            cohereApiKey := "", customApiKey := "", envGroqKey := "",
            envOpenrouterKey := "", envCohereKey := "", sessionToken := "",
            timeContext := "T", tokenFetch := .netFail, providerOk := true,
            providerText := "r", consumeOk := true }))) :=
  c8_amended _ "p" [] (by decide)

end AutoNext
